import Mathlib

/-!
# Registry metadata and access-control service

A shallow embedding of `05-docker-registry/main.go`: the gorm-backed metadata
store (users, images, tags with soft delete), the JWT login / refresh / verify
handlers, and the redis-backed metrics endpoint.

Conventions of the embedding

* A handler `h(c *gin.Context)` becomes a function of the request data it reads
  (path parameters, decoded body, `Authorization` header), the global handles it
  uses (`db`, `rdb`, `config`), the clock, and a fault oracle; it returns the JSON
  response and, for handlers that write, the next store state.
* Every call into the database or the cache can fail for reasons outside the
  program (connection loss).  `Faults` says which calls of a handler fail: call
  number `k` (counted from 0 in program order) fails when `fault k = true`.  A
  failed statement has no effect on the store.
* Time is Unix seconds as an unbounded `Int`.
-/

namespace Registry

/-! ## Data model (main.go, lines 41-71) -/

/-- Unix time in seconds. -/
abbrev Time := Int

/-- The embedded `gorm.Model`: primary key, timestamps and the soft-delete marker. -/
structure Model where
  ID : Nat
  CreatedAt : Time
  UpdatedAt : Time
  DeletedAt : Option Time
deriving DecidableEq, Repr

/-- Go `type User struct` (the `uniqueIndex` on `Username` is enforced by `Store.createUserRow`). -/
structure User extends Model where
  Username : String
  Password : String
  Email : String
  Role : String
  Active : Bool
deriving DecidableEq, Repr

/-- Go `type Image struct`.  The `Tags []Tag` field is a has-many association, not a
column: it is filled only by `Preload`, which no handler calls, so the rows read
by `First` and `Find` carry it empty and it is left out of the row. -/
structure Image extends Model where
  Name : String
  Description : String
  Owner : String
  Public : Bool
deriving DecidableEq, Repr

/-- Go `type Tag struct`.  Its own `CreatedAt` shadows the one of `gorm.Model`. -/
structure Tag extends Model where
  ImageID : Nat
  Name : String
  Digest : String
  Size : Int
  LastPulled : Time
  PullCount : Int
deriving DecidableEq, Repr

/-- The database behind the global `db`: one list of rows per migrated table. -/
structure Store where
  users : List User
  images : List Image
  tags : List Tag
deriving DecidableEq, Repr

/-- Errors a gorm call reports. -/
inductive DBError where
  | ErrRecordNotFound
  | ErrDuplicatedKey
  | ErrConnection
deriving DecidableEq, Repr

/-- Results of fallible calls can be compared. -/
instance instDecidableEqExcept {ε α : Type} [DecidableEq ε] [DecidableEq α] :
    DecidableEq (Except ε α) := fun a b =>
  match a, b with
  | .ok x, .ok y =>
    if h : x = y then isTrue (by rw [h]) else isFalse (fun h' => h (by cases h'; rfl))
  | .error x, .error y =>
    if h : x = y then isTrue (by rw [h]) else isFalse (fun h' => h (by cases h'; rfl))
  | .ok _, .error _ => isFalse (fun h => by cases h)
  | .error _, .ok _ => isFalse (fun h => by cases h)

/-- Which store / cache calls of a handler fail, by position in program order. -/
abbrev Faults := Nat → Bool

/-- The environment in which every call succeeds. -/
def noFaults : Faults := fun _ => false

/-! ## gorm primitives -/

/-- The row with the least primary key (`ORDER BY id LIMIT 1`). -/
def leastBy {α : Type} (key : α → Nat) : List α → Option α
  | [] => none
  | r :: rs =>
    match leastBy key rs with
    | none => some r
    | some m => if key r ≤ key m then some r else some m

/-- Call `db.Where(cond).First(&row)`: soft-deleted rows are invisible; the first row by
primary key is returned, `ErrRecordNotFound` when there is none. -/
def gormFirst {α : Type} (fault : Bool) (model : α → Model) (cond : α → Bool)
    (rows : List α) : Except DBError α :=
  if fault then .error .ErrConnection
  else
    match leastBy (fun r => (model r).ID)
        (rows.filter (fun r => (model r).DeletedAt.isNone && cond r)) with
    | none => .error .ErrRecordNotFound
    | some r => .ok r

/-- Call `db.Where(cond).Find(&rows)`: all rows that are not soft-deleted and match. -/
def gormFind {α : Type} (fault : Bool) (model : α → Model) (cond : α → Bool)
    (rows : List α) : Except DBError (List α) :=
  if fault then .error .ErrConnection
  else .ok (rows.filter (fun r => (model r).DeletedAt.isNone && cond r))

/-- Call `db.Where(cond).Delete(&T{})` on a model with `DeletedAt`: an
`UPDATE ... SET deleted_at = now WHERE cond AND deleted_at IS NULL`. -/
def gormSoftDelete {α : Type} (fault : Bool) (model : α → Model)
    (setDeleted : Time → α → α) (cond : α → Bool) (now : Time)
    (rows : List α) : Except DBError (List α) :=
  if fault then .error .ErrConnection
  else .ok (rows.map (fun r =>
    if (model r).DeletedAt.isNone && cond r then setDeleted now r else r))

/-- Sets the soft-delete marker of a user row. -/
def User.markDeleted (now : Time) (u : User) : User := { u with DeletedAt := some now }

/-- Sets the soft-delete marker of an image row. -/
def Image.markDeleted (now : Time) (i : Image) : Image := { i with DeletedAt := some now }

/-- Sets the soft-delete marker of a tag row. -/
def Tag.markDeleted (now : Time) (t : Tag) : Tag := { t with DeletedAt := some now }

/-! ## HTTP responses -/

abbrev StatusOK : Nat := 200
abbrev StatusCreated : Nat := 201
abbrev StatusBadRequest : Nat := 400
abbrev StatusUnauthorized : Nat := 401
abbrev StatusNotFound : Nat := 404
abbrev StatusConflict : Nat := 409
abbrev StatusInternalServerError : Nat := 500

/-- A JSON value of a claims map, as `encoding/json` decodes it into an
`interface{}`: a string, a number (decoded as a `float64`), or something else.  A
number is given by the value of the decoded `float64`: `num n` is a number whose
value is the integer `n`, `frac q` a number whose value is the rational `q`, whole
or not. -/
inductive JSONValue where
  | str (s : String)
  | num (n : Int)
  | frac (q : ℚ)
  | other
deriving DecidableEq, Repr

/-- The value of a JSON number; `none` for a value that is not a number. -/
def JSONValue.number? : JSONValue → Option ℚ
  | .num n => some (n : ℚ)
  | .frac q => some q
  | _ => none

/-- Type `jwt.MapClaims`, a map from claim name to JSON value. -/
abbrev MapClaims := List (String × JSONValue)

/-- The JSON bodies the handlers write with `c.JSON`. -/
inductive Body where
  | error (msg : String)
  | message (msg : String)
  | image (i : Image)
  | images (l : List Image)
  | tags (l : List Tag)
  | user (u : User)
  | users (l : List User)
  | tokenUser (token : String) (user : User)
  | token (token : String)
  | claims (valid : Bool) (claims : MapClaims)
  | metrics (images tags : Int) (timestamp : Time)
  | aborted
deriving DecidableEq, Repr

/-- Status code and body of a response. -/
structure Response where
  status : Nat
  body : Body
deriving DecidableEq, Repr

/-! ## Image and tag handlers (main.go, lines 251-339) -/

/-- Call `db.Where("name = ?", name).First(&image)`. -/
def Store.firstImage (fault : Bool) (st : Store) (name : String) : Except DBError Image :=
  gormFirst fault Image.toModel (fun i => i.Name == name) st.images

/-- Call `db.Where("image_id = ?", id).Find(&tags)`. -/
def Store.findTags (fault : Bool) (st : Store) (imageID : Nat) : Except DBError (List Tag) :=
  gormFind fault Tag.toModel (fun t => t.ImageID == imageID) st.tags

/-- Call `db.Where("image_id = ? AND name = ?", id, tagName).First(&tag)`. -/
def Store.firstTag (fault : Bool) (st : Store) (imageID : Nat) (tagName : String) :
    Except DBError Tag :=
  gormFirst fault Tag.toModel (fun t => t.ImageID == imageID && t.Name == tagName) st.tags

/-- Call `db.Where("image_id = ?", id).Delete(&Tag{})`. -/
def Store.deleteTagsOf (fault : Bool) (now : Time) (st : Store) (imageID : Nat) :
    Except DBError Store :=
  match gormSoftDelete fault Tag.toModel Tag.markDeleted (fun t => t.ImageID == imageID)
      now st.tags with
  | .error e => .error e
  | .ok tags => .ok { st with tags := tags }

/-- Call `db.Delete(&image)`: soft delete by primary key. -/
def Store.deleteImageRow (fault : Bool) (now : Time) (st : Store) (image : Image) :
    Except DBError Store :=
  match gormSoftDelete fault Image.toModel Image.markDeleted (fun i => i.ID == image.ID)
      now st.images with
  | .error e => .error e
  | .ok images => .ok { st with images := images }

/-- Call `db.Delete(&tag)`: soft delete by primary key. -/
def Store.deleteTagRow (fault : Bool) (now : Time) (st : Store) (tag : Tag) :
    Except DBError Store :=
  match gormSoftDelete fault Tag.toModel Tag.markDeleted (fun t => t.ID == tag.ID)
      now st.tags with
  | .error e => .error e
  | .ok tags => .ok { st with tags := tags }

/-- Handler `func listImages`. -/
def listImages (fault : Faults) (st : Store) : Response :=
  match gormFind (fault 0) Image.toModel (fun _ => true) st.images with
  | .error _ => ⟨StatusInternalServerError, .error "Failed to fetch images"⟩
  | .ok images => ⟨StatusOK, .images images⟩

/-- Handler `func getImage`. -/
def getImage (fault : Faults) (st : Store) (name : String) : Response :=
  match st.firstImage (fault 0) name with
  | .error _ => ⟨StatusNotFound, .error "Image not found"⟩
  | .ok image => ⟨StatusOK, .image image⟩

/-- Handler `func listImageTags`. -/
def listImageTags (fault : Faults) (st : Store) (name : String) : Response :=
  match st.firstImage (fault 0) name with
  | .error _ => ⟨StatusNotFound, .error "Image not found"⟩
  | .ok image =>
    match st.findTags (fault 1) image.ID with
    | .error _ => ⟨StatusInternalServerError, .error "Failed to fetch tags"⟩
    | .ok tags => ⟨StatusOK, .tags tags⟩

/-- Handler `func deleteImage`: look the image up, delete its tags, then delete the image.
The three statements are separate calls on `db`; there is no transaction. -/
def deleteImage (fault : Faults) (now : Time) (st : Store) (name : String) :
    Response × Store :=
  match st.firstImage (fault 0) name with
  | .error _ => (⟨StatusNotFound, .error "Image not found"⟩, st)
  | .ok image =>
    match st.deleteTagsOf (fault 1) now image.ID with
    | .error _ => (⟨StatusInternalServerError, .error "Failed to delete image tags"⟩, st)
    | .ok st1 =>
      match st1.deleteImageRow (fault 2) now image with
      | .error _ => (⟨StatusInternalServerError, .error "Failed to delete image"⟩, st1)
      | .ok st2 => (⟨StatusOK, .message "Image deleted successfully"⟩, st2)

/-- Handler `func deleteImageTag`. -/
def deleteImageTag (fault : Faults) (now : Time) (st : Store) (name tagName : String) :
    Response × Store :=
  match st.firstImage (fault 0) name with
  | .error _ => (⟨StatusNotFound, .error "Image not found"⟩, st)
  | .ok image =>
    match st.firstTag (fault 1) image.ID tagName with
    | .error _ => (⟨StatusNotFound, .error "Tag not found"⟩, st)
    | .ok tag =>
      match st.deleteTagRow (fault 2) now tag with
      | .error _ => (⟨StatusInternalServerError, .error "Failed to delete tag"⟩, st)
      | .ok st1 => (⟨StatusOK, .message "Tag deleted successfully"⟩, st1)

/-! ## The jwt-go library (github.com/dgrijalva/jwt-go), as far as the handlers use it

The compact serialisation (base64url of the JSON header and claims, joined with the
signature by dots) and the HMAC itself are left uninterpreted: `JWTLib` carries them
as functions.  What `jwt.Parse` does with the decoded token (choice of the signing
method, validation of the registered claims, comparison of the signature) is
modelled in full. -/

/-- A decoded token: the `alg` header, the claims, and the signature segment. -/
structure Token where
  alg : String
  claims : MapClaims
  signature : String
deriving DecidableEq, Repr

/-- The uninterpreted part of the library: serialisation to and from the compact
form, and the keyed MAC (by algorithm name and key) of a header and claims pair. -/
structure JWTLib where
  serialize : Token → String
  deserialize : String → Option Token
  hmac : String → String → MapClaims → String

/-- Method `token.SignedString(key)` for a token made by `jwt.New(method)` with the given
claims.  With an HMAC method and a byte-slice key it cannot fail. -/
def JWTLib.SignedString (lib : JWTLib) (alg : String) (claims : MapClaims)
    (key : String) : String :=
  lib.serialize { alg := alg, claims := claims, signature := lib.hmac alg key claims }

/-- The contract of the serialisation: parsing the compact form of a token gives
the token back. -/
def JWTLib.Lawful (lib : JWTLib) : Prop :=
  ∀ t : Token, lib.deserialize (lib.serialize t) = some t

/-- Library function `verifyExp` (claims.go): an `exp` of 0 counts as not set. -/
def verifyExp (exp now : Int) (required : Bool) : Bool :=
  if exp = 0 then !required else decide (now ≤ exp)

/-- Library function `verifyIat` (claims.go). -/
def verifyIat (iat now : Int) (required : Bool) : Bool :=
  if iat = 0 then !required else decide (now ≥ iat)

/-- Library function `verifyNbf` (claims.go). -/
def verifyNbf (nbf now : Int) (required : Bool) : Bool :=
  if nbf = 0 then !required else decide (now ≥ nbf)

/-- The Go conversion `int64(x)` of a `float64` claim: the fraction is dropped,
rounding toward zero.  As everywhere in this file `int64` is the unbounded `Int`.
For a value of magnitude `2 ^ 63` or more the result of the Go conversion depends
on the platform; against a clock reading the unbounded value compares like the
saturating conversion (arm64), not like the one of amd64, which yields the least
`int64`. -/
def truncate (x : ℚ) : Int := Int.tdiv x.num x.den

/-- Method `MapClaims.VerifyExpiresAt`: the claim is converted with `int64(exp)`
and handed to `verifyExp`; a claim that is absent or not a number passes when it
is not required. -/
def VerifyExpiresAt (m : MapClaims) (cmp : Int) (req : Bool) : Bool :=
  match m.lookup "exp" with
  | some (.num e) => verifyExp e cmp req
  | some (.frac q) => verifyExp (truncate q) cmp req
  | _ => req == false

/-- Method `MapClaims.VerifyIssuedAt`. -/
def VerifyIssuedAt (m : MapClaims) (cmp : Int) (req : Bool) : Bool :=
  match m.lookup "iat" with
  | some (.num e) => verifyIat e cmp req
  | some (.frac q) => verifyIat (truncate q) cmp req
  | _ => req == false

/-- Method `MapClaims.VerifyNotBefore`. -/
def VerifyNotBefore (m : MapClaims) (cmp : Int) (req : Bool) : Bool :=
  match m.lookup "nbf" with
  | some (.num e) => verifyNbf e cmp req
  | some (.frac q) => verifyNbf (truncate q) cmp req
  | _ => req == false

/-- Method `MapClaims.Valid`, as a Boolean: no validation error. -/
def ClaimsValid (m : MapClaims) (now : Int) : Bool :=
  VerifyExpiresAt m now false && VerifyIssuedAt m now false && VerifyNotBefore m now false

/-- Why `jwt.Parse` rejected a token. -/
inductive ValidationError where
  | Malformed
  | Unverifiable
  | ClaimsInvalid
  | SignatureInvalid
deriving DecidableEq, Repr

/-- Function `jwt.Parse(tokenString, keyFunc)` with a key function that returns the byte
slice `key` whatever the header says.  Only the HMAC methods accept such a key.
The result is `ok` exactly when the Go call returns `err == nil` and
`token.Valid`. -/
def jwtParse (lib : JWTLib) (key : String) (now : Time) (tokenString : String) :
    Except ValidationError Token :=
  match lib.deserialize tokenString with
  | none => .error .Malformed
  | some token =>
    if token.alg = "HS256" ∨ token.alg = "HS384" ∨ token.alg = "HS512" then
      if !ClaimsValid token.claims now then .error .ClaimsInvalid
      else if token.signature ≠ lib.hmac token.alg key token.claims then
        .error .SignatureInvalid
      else .ok token
    else .error .Unverifiable

/-! ## Request plumbing -/

/-- Removes the first occurrence of the non-empty `old` from a list of characters. -/
def removeFirst (old : List Char) : List Char → List Char
  | [] => []
  | c :: cs =>
    if old.isPrefixOf (c :: cs) then (c :: cs).drop old.length
    else c :: removeFirst old cs

/-- Call `strings.Replace(authHeader, "Bearer ", "", 1)`. -/
def stripBearer (authHeader : String) : String :=
  ⟨removeFirst "Bearer ".data authHeader.data⟩

/-- The part of `Config` the handlers read. -/
structure Config where
  JWTSecret : String
deriving DecidableEq, Repr

/-- Go `type LoginRequest struct`. -/
structure LoginRequest where
  Username : String
  Password : String
deriving DecidableEq, Repr

/-- Go `type CreateUserRequest struct`. -/
structure CreateUserRequest where
  Username : String
  Password : String
  Email : String
  Role : String
deriving DecidableEq, Repr

/-- Call `c.ShouldBindJSON(&req)` for a `LoginRequest`.  The argument is the JSON-decoded
body (`none` when the body is not JSON of that shape, a missing field decodes to
the empty string); the `binding:"required"` tags reject empty fields. -/
def bindLoginRequest (body : Option LoginRequest) : Option LoginRequest :=
  match body with
  | none => none
  | some req => if req.Username ≠ "" ∧ req.Password ≠ "" then some req else none

/-- Call `c.ShouldBindJSON(&req)` for a `CreateUserRequest`: all four fields are
`required`, and `Email` must also pass the validator's `email` rule, which is the
parameter `isEmail`. -/
def bindCreateUserRequest (isEmail : String → Bool) (body : Option CreateUserRequest) :
    Option CreateUserRequest :=
  match body with
  | none => none
  | some req =>
    if req.Username ≠ "" ∧ req.Password ≠ "" ∧ (req.Email ≠ "" ∧ isEmail req.Email = true)
        ∧ req.Role ≠ "" then some req
    else none

/-! ## Authentication handlers (main.go, lines 341-449) -/

/-- Call `db.Where("username = ?", username).First(&user)`. -/
def Store.firstUser (fault : Bool) (st : Store) (username : String) : Except DBError User :=
  gormFirst fault User.toModel (fun u => u.Username == username) st.users

/-- Seconds in `time.Hour * 24`. -/
abbrev day : Int := 86400

/-- Handler `func login`. -/
def login (lib : JWTLib) (config : Config) (fault : Faults) (now : Time) (st : Store)
    (body : Option LoginRequest) : Response :=
  match bindLoginRequest body with
  | none => ⟨StatusBadRequest, .error "Invalid request"⟩
  | some req =>
    match st.firstUser (fault 0) req.Username with
    | .error _ => ⟨StatusUnauthorized, .error "Invalid credentials"⟩
    | .ok user =>
      if req.Password ≠ user.Password then
        ⟨StatusUnauthorized, .error "Invalid credentials"⟩
      else
        let claims : MapClaims :=
          [("username", .str user.Username), ("role", .str user.Role),
           ("exp", .num (now + day))]
        let tokenString := lib.SignedString "HS256" claims config.JWTSecret
        ⟨StatusOK, .tokenUser tokenString user⟩

/-- Handler `func getToken` (token refresh).  The type assertion
`claims["username"].(string)` panics when the claim is absent or not a string;
`gin.Recovery` turns the panic into an empty 500 response. -/
def getToken (lib : JWTLib) (config : Config) (fault : Faults) (now : Time) (st : Store)
    (authHeader : String) : Response :=
  if authHeader = "" then ⟨StatusUnauthorized, .error "No token provided"⟩
  else
    let tokenString := stripBearer authHeader
    match jwtParse lib config.JWTSecret now tokenString with
    | .error _ => ⟨StatusUnauthorized, .error "Invalid token"⟩
    | .ok token =>
      match token.claims.lookup "username" with
      | some (.str username) =>
        match st.firstUser (fault 0) username with
        | .error _ => ⟨StatusUnauthorized, .error "User not found"⟩
        | .ok user =>
          let newClaims : MapClaims :=
            [("username", .str user.Username), ("role", .str user.Role),
             ("exp", .num (now + day))]
          let newTokenString := lib.SignedString "HS256" newClaims config.JWTSecret
          ⟨StatusOK, .token newTokenString⟩
      | _ => ⟨StatusInternalServerError, .aborted⟩

/-- Handler `func verifyToken`. -/
def verifyToken (lib : JWTLib) (config : Config) (now : Time) (authHeader : String) :
    Response :=
  if authHeader = "" then ⟨StatusUnauthorized, .error "No token provided"⟩
  else
    let tokenString := stripBearer authHeader
    match jwtParse lib config.JWTSecret now tokenString with
    | .error _ => ⟨StatusUnauthorized, .error "Invalid token"⟩
    | .ok token => ⟨StatusOK, .claims true token.claims⟩

/-! ## User handlers (main.go, lines 451-542) -/

/-- The next value of the primary-key sequence: larger than every key in use. -/
def nextID (users : List User) : Nat :=
  (users.map (fun u => u.ID)).foldr max 0 + 1

/-- Call `db.Create(&user)`: the unique index on `username` covers every row of the
table, soft-deleted rows included; on success the row gets a fresh primary key
and its timestamps. -/
def Store.createUserRow (fault : Bool) (now : Time) (st : Store) (user : User) :
    Except DBError (User × Store) :=
  if fault then .error .ErrConnection
  else if st.users.any (fun r => r.Username == user.Username) then .error .ErrDuplicatedKey
  else
    let row : User := { user with ID := nextID st.users, CreatedAt := now, UpdatedAt := now }
    .ok (row, { st with users := st.users ++ [row] })

/-- Call `db.Save(&user)` for a row that has a primary key: all columns are written,
`updated_at` is set to the current time. -/
def Store.saveUser (fault : Bool) (now : Time) (st : Store) (user : User) :
    Except DBError (User × Store) :=
  if fault then .error .ErrConnection
  else
    let row : User := { user with UpdatedAt := now }
    .ok (row, { st with users := st.users.map (fun r =>
      if r.DeletedAt.isNone && r.ID == user.ID then row else r) })

/-- Call `db.Delete(&user)`: soft delete by primary key. -/
def Store.deleteUserRow (fault : Bool) (now : Time) (st : Store) (user : User) :
    Except DBError Store :=
  match gormSoftDelete fault User.toModel User.markDeleted (fun u => u.ID == user.ID)
      now st.users with
  | .error e => .error e
  | .ok users => .ok { st with users := users }

/-- Handler `func listUsers`. -/
def listUsers (fault : Faults) (st : Store) : Response :=
  match gormFind (fault 0) User.toModel (fun _ => true) st.users with
  | .error _ => ⟨StatusInternalServerError, .error "Failed to fetch users"⟩
  | .ok users => ⟨StatusOK, .users users⟩

/-- Handler `func createUser`. -/
def createUser (isEmail : String → Bool) (fault : Faults) (now : Time) (st : Store)
    (body : Option CreateUserRequest) : Response × Store :=
  match bindCreateUserRequest isEmail body with
  | none => (⟨StatusBadRequest, .error "Invalid request"⟩, st)
  | some req =>
    match st.firstUser (fault 0) req.Username with
    | .ok _ => (⟨StatusConflict, .error "Username already exists"⟩, st)
    | .error _ =>
      let user : User :=
        { ID := 0, CreatedAt := 0, UpdatedAt := 0, DeletedAt := none,
          Username := req.Username, Password := req.Password, Email := req.Email,
          Role := req.Role, Active := true }
      match st.createUserRow (fault 1) now user with
      | .error _ => (⟨StatusInternalServerError, .error "Failed to create user"⟩, st)
      | .ok (row, st1) => (⟨StatusCreated, .user row⟩, st1)

/-- Handler `func updateUser`.  The body is bound as a `CreateUserRequest`, the same type
`createUser` binds. -/
def updateUser (isEmail : String → Bool) (fault : Faults) (now : Time) (st : Store)
    (username : String) (body : Option CreateUserRequest) : Response × Store :=
  match bindCreateUserRequest isEmail body with
  | none => (⟨StatusBadRequest, .error "Invalid request"⟩, st)
  | some req =>
    match st.firstUser (fault 0) username with
    | .error _ => (⟨StatusNotFound, .error "User not found"⟩, st)
    | .ok user =>
      let user1 : User := { user with Email := req.Email, Role := req.Role }
      let user2 : User :=
        if req.Password ≠ "" then { user1 with Password := req.Password } else user1
      match st.saveUser (fault 1) now user2 with
      | .error _ => (⟨StatusInternalServerError, .error "Failed to update user"⟩, st)
      | .ok (row, st1) => (⟨StatusOK, .user row⟩, st1)

/-- Handler `func deleteUser`. -/
def deleteUser (fault : Faults) (now : Time) (st : Store) (username : String) :
    Response × Store :=
  match st.firstUser (fault 0) username with
  | .error _ => (⟨StatusNotFound, .error "User not found"⟩, st)
  | .ok user =>
    match st.deleteUserRow (fault 1) now user with
    | .error _ => (⟨StatusInternalServerError, .error "Failed to delete user"⟩, st)
    | .ok st1 => (⟨StatusOK, .message "User deleted successfully"⟩, st1)

/-! ## Metrics (main.go, lines 231-249) -/

/-- One key of the redis instance behind `rdb`, with its optional expiry time. -/
structure CacheEntry where
  key : String
  value : String
  expireAt : Option Time
deriving DecidableEq, Repr

/-- The cache: its keys, in lookup order. -/
abbrev Cache := List CacheEntry

/-- Errors of a redis command. -/
inductive RedisError where
  | Nil
  | ErrConnection
  | ErrSyntax
deriving DecidableEq, Repr

/-- An entry is readable while it has no expiry time or the time is still ahead. -/
def CacheEntry.live (now : Time) (e : CacheEntry) : Bool :=
  match e.expireAt with
  | none => true
  | some t => decide (now < t)

/-- Call `rdb.Get(ctx, key)`: the value of a key that is set and has not expired,
`redis.Nil` otherwise. -/
def rdbGet (fault : Bool) (now : Time) (cache : Cache) (key : String) :
    Except RedisError String :=
  if fault then .error .ErrConnection
  else
    match cache.find? (fun e => e.key == key && e.live now) with
    | none => .error .Nil
    | some e => .ok e.value

/-- Reads a run of ASCII decimal digits, most significant first. -/
def parseDigits : List Char → Nat → Option Nat
  | [], acc => some acc
  | c :: cs, acc =>
    if '0' ≤ c ∧ c ≤ '9' then parseDigits cs (acc * 10 + (c.toNat - '0'.toNat))
    else none

/-- Function `strconv.Atoi` on a 64-bit platform: an optional sign, at least one decimal
digit, and a value that fits in `int64`. -/
def atoi (s : String) : Option Int :=
  match s.data with
  | [] => none
  | '-' :: ds =>
    if ds = [] then none
    else (parseDigits ds 0).bind (fun n => if n ≤ 2 ^ 63 then some (-(n : Int)) else none)
  | '+' :: ds =>
    if ds = [] then none
    else (parseDigits ds 0).bind (fun n => if n < 2 ^ 63 then some (n : Int) else none)
  | ds => (parseDigits ds 0).bind (fun n => if n < 2 ^ 63 then some (n : Int) else none)

/-- Call `rdb.Get(ctx, key).Int()`. -/
def rdbGetInt (fault : Bool) (now : Time) (cache : Cache) (key : String) :
    Except RedisError Int :=
  match rdbGet fault now cache key with
  | .error e => .error e
  | .ok v =>
    match atoi v with
    | none => .error .ErrSyntax
    | some n => .ok n

/-- Handler `func getRegistryMetrics`. -/
def getRegistryMetrics (fault : Faults) (now : Time) (cache : Cache) : Response :=
  let imageCount : Int :=
    match rdbGetInt (fault 0) now cache "registry:image_count" with
    | .error _ => 0
    | .ok n => n
  let tagCount : Int :=
    match rdbGetInt (fault 1) now cache "registry:tag_count" with
    | .error _ => 0
    | .ok n => n
  ⟨StatusOK, .metrics imageCount tagCount now⟩

/-! ## Stores used as concrete inputs -/

/-- An image row with the given key, name and deletion marker. -/
def mkImage (id : Nat) (name : String) (deleted : Option Time) : Image :=
  { ID := id, CreatedAt := 0, UpdatedAt := 0, DeletedAt := deleted,
    Name := name, Description := "", Owner := "alice", Public := true }

/-- A live tag row with the given key, image reference and name. -/
def mkTag (id imageID : Nat) (name : String) : Tag :=
  { ID := id, CreatedAt := 0, UpdatedAt := 0, DeletedAt := none,
    ImageID := imageID, Name := name, Digest := "sha256:0", Size := 1,
    LastPulled := 0, PullCount := 0 }

/-- A user row with the given key, name, secret, role and deletion marker. -/
def mkUser (id : Nat) (name pw role : String) (deleted : Option Time) : User :=
  { ID := id, CreatedAt := 0, UpdatedAt := 0, DeletedAt := deleted,
    Username := name, Password := pw, Email := "a@example.org", Role := role,
    Active := true }

/-- Image `app/web` with tags `v1` and `v2`, and one user. -/
def demoStore : Store :=
  { users := [mkUser 1 "alice" "s3cr3t" "admin" none],
    images := [mkImage 1 "app/web" none],
    tags := [mkTag 1 1 "v1", mkTag 2 1 "v2"] }

/-- Two live images that share the name `app/web`; the tag belongs to the first. -/
def twinStore : Store :=
  { users := [],
    images := [mkImage 1 "app/web" none, mkImage 2 "app/web" none],
    tags := [mkTag 1 1 "v1"] }

/-- The third store call of a handler fails, the others succeed. -/
def failThird : Faults := fun k => k == 2

/-! ## A concrete instance of the library

A small serialisation that satisfies the contract of the library: a token is a
sequence of fields, each written with its dots and backslashes escaped and closed
by a dot.  It is used to run the handlers on concrete requests. -/

/-- Writes a field with a backslash before every dot and backslash. -/
def escapeField : List Char → List Char
  | [] => []
  | c :: cs =>
    if c = '.' ∨ c = '\\' then '\\' :: c :: escapeField cs else c :: escapeField cs

/-- Writes the fields one after the other, each escaped and closed by a dot. -/
def joinFields : List (List Char) → List Char
  | [] => []
  | f :: fs => escapeField f ++ '.' :: joinFields fs

/-- Reads the fields back: `cur` is the field being read, `esc` says that the
previous character was an escaping backslash. -/
def splitFields : List Char → List Char → Bool → List (List Char)
  | [], _, _ => []
  | c :: rest, cur, true => splitFields rest (cur ++ [c]) false
  | c :: rest, cur, false =>
    if c = '\\' then splitFields rest cur true
    else if c = '.' then cur :: splitFields rest [] false
    else splitFields rest (cur ++ [c]) false

/-- The decimal digit `d` as a character. -/
def digitChar (d : Nat) : Char := Char.ofNat ('0'.toNat + d)

/-- The decimal digits of `n`, most significant first; `fuel` bounds the depth. -/
def natDigits : Nat → Nat → List Char
  | 0, _ => []
  | fuel + 1, n =>
    if n < 10 then [digitChar n] else natDigits fuel (n / 10) ++ [digitChar (n % 10)]

/-- The three fields of a claim value: a type mark, the payload (for a number the
digits of the integer or of the numerator) and, for a `frac`, the digits of the
denominator. -/
def valueFields : JSONValue → List (List Char)
  | .str s => [['s'], s.data, []]
  | .num n => [[if n < 0 then '-' else '+'], natDigits (n.natAbs + 1) n.natAbs, []]
  | .frac q =>
    [[if q.num < 0 then 'm' else 'p'], natDigits (q.num.natAbs + 1) q.num.natAbs,
     natDigits (q.den + 1) q.den]
  | .other => [['o'], [], []]

/-- The fields of a claims map: name, type mark and payloads of each claim. -/
def claimsFields : MapClaims → List (List Char)
  | [] => []
  | (k, v) :: rest => k.data :: (valueFields v ++ claimsFields rest)

/-- The fields of a token. -/
def tokenFields (t : Token) : List (List Char) :=
  t.alg.data :: t.signature.data :: claimsFields t.claims

/-- Reads a claim value from its type mark and payloads. -/
def readValue (mark payload denom : List Char) : Option JSONValue :=
  if mark = ['s'] then some (.str ⟨payload⟩)
  else if mark = ['+'] then (parseDigits payload 0).map (fun (n : Nat) => JSONValue.num n)
  else if mark = ['-'] then (parseDigits payload 0).map (fun (n : Nat) => JSONValue.num (-n))
  else if mark = ['p'] then
    (parseDigits payload 0).bind (fun (n : Nat) =>
      (parseDigits denom 0).map (fun (d : Nat) => JSONValue.frac (mkRat n d)))
  else if mark = ['m'] then
    (parseDigits payload 0).bind (fun (n : Nat) =>
      (parseDigits denom 0).map (fun (d : Nat) => JSONValue.frac (mkRat (-n) d)))
  else if mark = ['o'] then some .other
  else none

/-- Reads a claims map from its fields. -/
def readClaims : List (List Char) → Option MapClaims
  | [] => some []
  | k :: mark :: payload :: denom :: rest =>
    match readValue mark payload denom, readClaims rest with
    | some v, some m => some ((⟨k⟩, v) :: m)
    | _, _ => none
  | _ => none

/-- Reads a token from its fields. -/
def readToken : List (List Char) → Option Token
  | alg :: sig :: rest => (readClaims rest).map (fun m => ⟨⟨alg⟩, m, ⟨sig⟩⟩)
  | _ => none

/-- The concrete library: field serialisation, and a tag that writes out the key,
the algorithm and the claims (any function of the three serves as a MAC here). -/
def demoLib : JWTLib :=
  { serialize := fun t => ⟨joinFields (tokenFields t)⟩
    deserialize := fun s => readToken (splitFields s.data [] false)
    hmac := fun alg key claims => ⟨joinFields (key.data :: alg.data :: claimsFields claims)⟩ }

/-- The configuration with the fallback secret of `loadConfig`. -/
def demoConfig : Config := { JWTSecret := "your-secret-key" }

/-! ## Predicates of the claims -/

/-- The store holds a live user `u`, and every live user `u` it holds has role `r`. -/
def UserHasRole (st : Store) (u r : String) : Prop :=
  (∃ row ∈ st.users, row.DeletedAt = none ∧ row.Username = u) ∧
  (∀ row ∈ st.users, row.DeletedAt = none → row.Username = u → row.Role = r)

/-- Claims for `alice` with the given role and expiry. -/
def demoClaims (role : String) (exp : Int) : MapClaims :=
  [("username", .str "alice"), ("role", .str role), ("exp", .num exp)]

/-- An `Authorization` header with a token for `alice` signed under the secret of
`demoConfig`. -/
def demoHeader (role : String) (exp : Int) : String :=
  "Bearer " ++ demoLib.SignedString "HS256" (demoClaims role exp) demoConfig.JWTSecret

/-- An `Authorization` header with a token for `alice` whose `exp` claim is the
given number, signed under the secret of `demoConfig`. -/
def demoHeaderAt (exp : ℚ) : String :=
  "Bearer " ++ demoLib.SignedString "HS256"
    [("username", .str "alice"), ("role", .str "admin"), ("exp", .frac exp)]
    demoConfig.JWTSecret

/-- Every tag that is not soft-deleted belongs to an image that is not soft-deleted. -/
def TagsHaveImage (st : Store) : Prop :=
  ∀ t ∈ st.tags, t.DeletedAt = none →
    ∃ i ∈ st.images, i.ID = t.ImageID ∧ i.DeletedAt = none

/-- The live images called `name` are one image: they share a primary key. -/
def NameIsUnique (st : Store) (name : String) : Prop :=
  ∀ a ∈ st.images, ∀ b ∈ st.images, a.DeletedAt = none → b.DeletedAt = none →
    a.Name = name → b.Name = name → a.ID = b.ID

/-- The tags table after `UPDATE tags SET deleted_at = now WHERE image_id = id`. -/
def tagsCascaded (now : Time) (id : Nat) (tags : List Tag) : List Tag :=
  tags.map (fun t => if t.DeletedAt.isNone && t.ImageID == id then t.markDeleted now else t)

/-- The images table after the soft delete of the row with primary key `id`. -/
def imagesDeleted (now : Time) (id : Nat) (images : List Image) : List Image :=
  images.map (fun i => if i.DeletedAt.isNone && i.ID == id then i.markDeleted now else i)

/-- The decimal form of an integer, the form in which redis keeps a counter. -/
def itoa (n : Int) : String :=
  if n < 0 then ⟨'-' :: natDigits (n.natAbs + 1) n.natAbs⟩
  else ⟨natDigits (n.natAbs + 1) n.natAbs⟩

/-- The key is not set, or every entry under it has expired. -/
def KeyAbsent (now : Time) (cache : Cache) (key : String) : Prop :=
  ∀ e ∈ cache, e.key = key → e.live now = false

/-- The key is set and not expired, and its value is `v`. -/
def KeyHolds (now : Time) (cache : Cache) (key v : String) : Prop :=
  (∃ e ∈ cache, e.key = key ∧ e.live now = true) ∧
  (∀ e ∈ cache, e.key = key → e.live now = true → e.value = v)

/-- What the metrics endpoint reports for one counter: 0 when the read fails, when
the key is absent or expired, or when its value is not an integer; the integer the
value denotes otherwise, which for the decimal form of an `int64` is that integer. -/
def CounterReport (fault : Bool) (now : Time) (cache : Cache) (key : String) (n : Int) :
    Prop :=
  (fault = true → n = 0) ∧
  (KeyAbsent now cache key → n = 0) ∧
  (∀ v, KeyHolds now cache key v → atoi v = none → n = 0) ∧
  (∀ v m, fault = false → KeyHolds now cache key v → atoi v = some m → n = m) ∧
  (∀ m : Int, -2 ^ 63 ≤ m → m < 2 ^ 63 → fault = false →
    KeyHolds now cache key (itoa m) → n = m)

/-- A stand-in for the validator's `email` rule: the address contains an at sign. -/
def demoIsEmail (s : String) : Bool := s.data.contains '@'

/-- A cache in which the image counter is 42 and the tag counter expired at 100. -/
def demoCache : Cache :=
  [{ key := "registry:image_count", value := "42", expireAt := none },
   { key := "registry:tag_count", value := "7", expireAt := some 100 }]

/-- No two live users share a username: live rows with one username are one row. -/
def LiveUsernamesUnique (st : Store) : Prop :=
  ∀ a ∈ st.users, ∀ b ∈ st.users, a.DeletedAt = none → b.DeletedAt = none →
    a.Username = b.Username → a = b

/-- The characters of the marker that `stripBearer` removes. -/
def bearer : List Char := "Bearer ".data

/-- The marker does not occur in the string. -/
def NoBearer (s : String) : Prop := ¬ List.IsInfix bearer s.data

/-- The store right after migration: no rows. -/
def emptyStore : Store := { users := [], images := [], tags := [] }

/-- The store after `alice` was created in the empty store and then deleted: its
only user row is soft-deleted. -/
def formerAliceStore : Store :=
  { users := [{ ID := 1, CreatedAt := 1, UpdatedAt := 1, DeletedAt := some 2,
                Username := "alice", Password := "s3cr3t", Email := "alice@example.org",
                Role := "admin", Active := true }],
    images := [], tags := [] }

/-- A valid request to create user `alice`. -/
def aliceRequest : CreateUserRequest :=
  { Username := "alice", Password := "s3cr3t", Email := "alice@example.org", Role := "admin" }

end Registry

/-! # System monitor (03-system-monitor/main.go): the top-processes listing

`getTopProcesses` reads the process table through gopsutil, keeps the processes
whose name, CPU share and memory information can be read, sorts them by CPU share
with a bubble sort and cuts the list at `limit`.

The `float64` and `float32` fields are modelled as rationals: the values gopsutil
returns are finite (`CPUPercent` is `100 * total / elapsed` with `elapsed > 0`, and
0 otherwise), and on finite values the comparison `<` of the sort is the order of
the rationals they denote. -/

namespace Monitor

/-- Go `type ProcessStats struct`. -/
structure ProcessStats where
  PID : Int
  PPID : Int
  Name : String
  Username : String
  CPUPercent : ℚ
  MemoryPerc : ℚ
  MemoryUsage : Nat
  Status : String
  CreateTime : Int
deriving DecidableEq

/-- What a gopsutil method returns: a value and whether the error is set.  The
value that comes with an error is whatever the library returns (for `Ppid` it
is -1, for instance). -/
structure Answer (α : Type) where
  value : α
  failed : Bool
deriving DecidableEq

/-- One entry of `process.Processes()`, by what its methods answer; `MemoryInfo`
is given by the `RSS` field of its result. -/
structure Process where
  Pid : Int
  Name : Answer String
  CPUPercent : Answer ℚ
  MemoryInfo : Answer Nat
  MemoryPercent : Answer ℚ
  Username : Answer String
  Status : Answer (List String)
  CreateTime : Answer Int
  Ppid : Answer Int
deriving DecidableEq

/-- The collection loop of `getTopProcesses`: a process whose `Name`, `CPUPercent`
or `MemoryInfo` fails is skipped; the other calls only log a warning when they
fail, and the value they returned is kept. -/
def collectStats : List Process → List ProcessStats
  | [] => []
  | p :: ps =>
    if p.Name.failed then collectStats ps
    else if p.CPUPercent.failed then collectStats ps
    else if p.MemoryInfo.failed then collectStats ps
    else
      { PID := p.Pid, PPID := p.Ppid.value, Name := p.Name.value,
        Username := p.Username.value, CPUPercent := p.CPUPercent.value,
        MemoryPerc := p.MemoryPercent.value, MemoryUsage := p.MemoryInfo.value,
        Status := ", ".intercalate p.Status.value,
        CreateTime := p.CreateTime.value } :: collectStats ps

/-- The body of the inner loop: swap the entries at `j` and `j + 1` when the first
has the smaller CPU share. -/
def swapIfLess (a : List ProcessStats) (j : Nat) : List ProcessStats :=
  match a[j]?, a[j + 1]? with
  | some x, some y =>
    if x.CPUPercent < y.CPUPercent then (a.set j y).set (j + 1) x else a
  | _, _ => a

/-- The inner loop `for j := 0; j < len(processStats)-i-1; j++`. -/
def innerLoop (a : List ProcessStats) (i : Nat) : List ProcessStats :=
  (List.range (a.length - i - 1)).foldl swapIfLess a

/-- The outer loop `for i := 0; i < len(processStats)-1; i++`. -/
def bubbleSort (a : List ProcessStats) : List ProcessStats :=
  (List.range (a.length - 1)).foldl innerLoop a

/-- How a call of `getTopProcesses` ends. -/
inductive Result where
  | ok (processStats : List ProcessStats)
  | err (msg : String)
  | panic
deriving DecidableEq

/-- Handler helper `func getTopProcesses(limit int)`.  The argument `processes` is
the answer of `process.Processes()`.  Slicing `processStats[:limit]` with a
negative `limit` panics. -/
def getTopProcesses (processes : Except String (List Process)) (limit : Int) : Result :=
  match processes with
  | .error e => .err e
  | .ok ps =>
    let processStats := bubbleSort (collectStats ps)
    if (processStats.length : Int) > limit then
      if limit < 0 then .panic else .ok (processStats.take limit.toNat)
    else .ok processStats

/-- One pass of the inner loop as a recursion on the list: `k` comparisons from the
head, the entry with the smaller CPU share moving on to the next comparison. -/
def bubblePass : Nat → List ProcessStats → List ProcessStats
  | k + 1, x :: y :: rest =>
    if x.CPUPercent < y.CPUPercent then y :: bubblePass k (x :: rest)
    else x :: bubblePass k (y :: rest)
  | _, l => l

/-- The list is in non-increasing order of CPU share. -/
def SortedByCPU (l : List ProcessStats) : Prop :=
  l.Pairwise (fun x y => y.CPUPercent ≤ x.CPUPercent)

/-- The invariant of the outer loop after `i` rounds: the last `i` entries are in
order and none of them exceeds an entry before them. -/
def SortedTail (i : Nat) (l : List ProcessStats) : Prop :=
  ∃ front back, l = front ++ back ∧ back.length = i ∧ SortedByCPU back ∧
    ∀ x ∈ front, ∀ y ∈ back, y.CPUPercent ≤ x.CPUPercent

/-- A process entry with the given id and CPU share whose calls all succeed. -/
def mkProcess (pid : Int) (cpu : ℚ) : Process :=
  { Pid := pid, Name := ⟨"proc", false⟩, CPUPercent := ⟨cpu, false⟩,
    MemoryInfo := ⟨4096, false⟩, MemoryPercent := ⟨1, false⟩, Username := ⟨"root", false⟩,
    Status := ⟨["S"], false⟩, CreateTime := ⟨0, false⟩, Ppid := ⟨1, false⟩ }

/-- Five processes: the name of the third cannot be read, the parent of the fourth
cannot be read. -/
def demoProcesses : List Process :=
  [mkProcess 1 3, mkProcess 2 50, { mkProcess 3 99 with Name := ⟨"", true⟩ },
   { mkProcess 4 12 with Ppid := ⟨-1, true⟩ }, mkProcess 5 50]

end Monitor

namespace Registry

/-! ## Lemmas on the gorm primitives -/

theorem leastBy_eq_none {α : Type} (key : α → Nat) (l : List α) :
    leastBy key l = none ↔ l = [] := by
  cases l with
  | nil => simp [leastBy]
  | cons r rs =>
    simp only [leastBy]
    cases leastBy key rs with
    | none => simp
    | some m => by_cases h : key r ≤ key m <;> simp [h]

theorem leastBy_mem {α : Type} (key : α → Nat) (l : List α) (r : α)
    (h : leastBy key l = some r) : r ∈ l := by
  induction l generalizing r with
  | nil => simp [leastBy] at h
  | cons a as ih =>
    simp only [leastBy] at h
    cases hrec : leastBy key as with
    | none =>
      rw [hrec] at h
      simp only [Option.some.injEq] at h
      simp [h]
    | some m =>
      rw [hrec] at h
      by_cases hle : key a ≤ key m
      · simp only [hle, if_true, Option.some.injEq] at h
        simp [h]
      · simp only [hle, if_false, Option.some.injEq] at h
        subst h
        exact List.mem_cons_of_mem _ (ih m hrec)

theorem gormFirst_ok {α : Type} {fault : Bool} {model : α → Model} {cond : α → Bool}
    {rows : List α} {r : α} (h : gormFirst fault model cond rows = .ok r) :
    fault = false ∧ r ∈ rows ∧ (model r).DeletedAt = none ∧ cond r = true := by
  unfold gormFirst at h
  cases fault with
  | true => simp at h
  | false =>
    simp only [Bool.false_eq_true, if_false] at h
    cases hl : leastBy (fun r => (model r).ID)
        (rows.filter (fun r => (model r).DeletedAt.isNone && cond r)) with
    | none => rw [hl] at h; simp at h
    | some m =>
      rw [hl] at h
      simp only [Except.ok.injEq] at h
      subst h
      have hm := leastBy_mem _ _ _ hl
      simp only [List.mem_filter, Bool.and_eq_true, Option.isNone_iff_eq_none] at hm
      exact ⟨rfl, hm.1, hm.2.1, hm.2.2⟩

theorem gormFirst_error {α : Type} (fault : Bool) (model : α → Model) (cond : α → Bool)
    (rows : List α) (h : ∀ r ∈ rows, (model r).DeletedAt = none → cond r = false) :
    ∃ e, gormFirst fault model cond rows = .error e := by
  cases hres : gormFirst fault model cond rows with
  | error e => exact ⟨e, rfl⟩
  | ok r =>
    obtain ⟨_, hmem, hdel, hc⟩ := gormFirst_ok hres
    rw [h r hmem hdel] at hc
    exact absurd hc (by simp)

theorem gormFirst_exists {α : Type} (model : α → Model) (cond : α → Bool)
    (rows : List α) (r : α) (hmem : r ∈ rows) (hdel : (model r).DeletedAt = none)
    (hc : cond r = true) : ∃ r', gormFirst false model cond rows = .ok r' := by
  unfold gormFirst
  simp only [Bool.false_eq_true, if_false]
  cases hl : leastBy (fun r => (model r).ID)
      (rows.filter (fun r => (model r).DeletedAt.isNone && cond r)) with
  | some m => exact ⟨m, rfl⟩
  | none =>
    rw [leastBy_eq_none] at hl
    have : r ∈ rows.filter (fun r => (model r).DeletedAt.isNone && cond r) := by
      simp [List.mem_filter, hmem, hdel, hc]
    rw [hl] at this
    simp at this

/-- The four ways `deleteImage` can end, with the store each leaves behind. -/
theorem deleteImage_cases (fault : Faults) (now : Time) (st : Store) (name : String) :
    (∃ e, st.firstImage (fault 0) name = .error e ∧
      deleteImage fault now st name = (⟨StatusNotFound, .error "Image not found"⟩, st)) ∨
    (∃ image, st.firstImage (fault 0) name = .ok image ∧ fault 1 = true ∧
      deleteImage fault now st name =
        (⟨StatusInternalServerError, .error "Failed to delete image tags"⟩, st)) ∨
    (∃ image, st.firstImage (fault 0) name = .ok image ∧ fault 1 = false ∧ fault 2 = true ∧
      deleteImage fault now st name =
        (⟨StatusInternalServerError, .error "Failed to delete image"⟩,
          { st with tags := tagsCascaded now image.ID st.tags })) ∨
    (∃ image, st.firstImage (fault 0) name = .ok image ∧ fault 1 = false ∧ fault 2 = false ∧
      deleteImage fault now st name =
        (⟨StatusOK, .message "Image deleted successfully"⟩,
          { st with tags := tagsCascaded now image.ID st.tags,
                    images := imagesDeleted now image.ID st.images })) := by
  unfold deleteImage
  cases h0 : st.firstImage (fault 0) name with
  | error e => exact Or.inl ⟨e, rfl, rfl⟩
  | ok image =>
    right
    cases h1 : fault 1 with
    | true =>
      left
      refine ⟨image, rfl, rfl, ?_⟩
      simp [Store.deleteTagsOf, gormSoftDelete, h1]
    | false =>
      right
      cases h2 : fault 2 with
      | true =>
        left
        refine ⟨image, rfl, rfl, rfl, ?_⟩
        simp [Store.deleteTagsOf, Store.deleteImageRow, gormSoftDelete, h1, h2, tagsCascaded]
      | false =>
        right
        refine ⟨image, rfl, rfl, rfl, ?_⟩
        simp [Store.deleteTagsOf, Store.deleteImageRow, gormSoftDelete, h1, h2, tagsCascaded,
          imagesDeleted]

/-- A tag that is still live after a soft delete was in the table before and did
not match the condition of the delete. -/
theorem live_tag_after_delete (cond : Tag → Bool) (now : Time) (tags : List Tag) (t : Tag)
    (hmem : t ∈ tags.map (fun r =>
      if r.DeletedAt.isNone && cond r then r.markDeleted now else r))
    (hlive : t.DeletedAt = none) : t ∈ tags ∧ cond t = false := by
  rw [List.mem_map] at hmem
  obtain ⟨r, hr, hrt⟩ := hmem
  by_cases hc : (r.DeletedAt.isNone && cond r) = true
  · rw [if_pos hc] at hrt
    subst hrt
    simp [Tag.markDeleted] at hlive
  · rw [if_neg hc] at hrt
    subst hrt
    refine ⟨hr, ?_⟩
    simpa [hlive] using hc

/-- An image that is still live after a soft delete by primary key was in the table
before and has another key. -/
theorem live_image_after_delete (now : Time) (id : Nat) (images : List Image) (i : Image)
    (hmem : i ∈ imagesDeleted now id images) (hlive : i.DeletedAt = none) :
    i ∈ images ∧ i.ID ≠ id := by
  unfold imagesDeleted at hmem
  rw [List.mem_map] at hmem
  obtain ⟨r, hr, hri⟩ := hmem
  by_cases hc : (r.DeletedAt.isNone && r.ID == id) = true
  · rw [if_pos hc] at hri
    subst hri
    simp [Image.markDeleted] at hlive
  · rw [if_neg hc] at hri
    subst hri
    refine ⟨hr, ?_⟩
    simpa [hlive] using hc

/-- A live image with another key survives the soft delete of the row `id`. -/
theorem image_kept_after_delete (now : Time) (id : Nat) (images : List Image) (i : Image)
    (hmem : i ∈ images) (hne : i.ID ≠ id) : i ∈ imagesDeleted now id images := by
  unfold imagesDeleted
  rw [List.mem_map]
  refine ⟨i, hmem, ?_⟩
  simp [hne]

/-- Deleting tags, and nothing else, keeps every live tag attached to a live image. -/
theorem TagsHaveImage_delete_tags (st : Store) (cond : Tag → Bool) (now : Time)
    (h : TagsHaveImage st) :
    TagsHaveImage { st with tags := st.tags.map (fun r =>
      if r.DeletedAt.isNone && cond r then r.markDeleted now else r) } := by
  intro t ht hlive
  exact h t (live_tag_after_delete cond now st.tags t ht hlive).1 hlive

/-- A store with the same images and tags satisfies the tag invariant as well. -/
theorem TagsHaveImage_congr (st st' : Store) (hi : st'.images = st.images)
    (ht : st'.tags = st.tags) (h : TagsHaveImage st) : TagsHaveImage st' := by
  unfold TagsHaveImage
  rw [hi, ht]
  exact h

theorem deleteImageTag_store (fault : Faults) (now : Time) (st : Store)
    (name tagName : String) :
    (deleteImageTag fault now st name tagName).2 = st ∨
    ∃ tag : Tag, (deleteImageTag fault now st name tagName).2 =
      { st with tags := st.tags.map (fun r =>
          if r.DeletedAt.isNone && r.ID == tag.ID then r.markDeleted now else r) } := by
  unfold deleteImageTag
  cases st.firstImage (fault 0) name with
  | error e => exact Or.inl rfl
  | ok image =>
    dsimp only
    cases st.firstTag (fault 1) image.ID tagName with
    | error e => exact Or.inl rfl
    | ok tag =>
      dsimp only
      cases h2 : fault 2 with
      | true => left; simp [Store.deleteTagRow, gormSoftDelete, h2]
      | false => right; exact ⟨tag, by simp [Store.deleteTagRow, gormSoftDelete, h2]⟩

theorem createUserRow_images_tags (fault : Bool) (now : Time) (st st1 : Store)
    (user row : User) (h : st.createUserRow fault now user = .ok (row, st1)) :
    st1.images = st.images ∧ st1.tags = st.tags := by
  unfold Store.createUserRow at h
  split at h
  · simp at h
  · split at h
    · simp at h
    · simp only [Except.ok.injEq, Prod.mk.injEq] at h
      obtain ⟨_, hst⟩ := h
      subst hst
      exact ⟨rfl, rfl⟩

theorem createUser_images_tags (isEmail : String → Bool) (fault : Faults) (now : Time)
    (st : Store) (body : Option CreateUserRequest) :
    (createUser isEmail fault now st body).2.images = st.images ∧
    (createUser isEmail fault now st body).2.tags = st.tags := by
  unfold createUser
  cases bindCreateUserRequest isEmail body with
  | none => exact ⟨rfl, rfl⟩
  | some req =>
    dsimp only
    cases st.firstUser (fault 0) req.Username with
    | ok u => exact ⟨rfl, rfl⟩
    | error e =>
      dsimp only
      split
      · exact ⟨rfl, rfl⟩
      · rename_i row st1 hres
        exact createUserRow_images_tags _ _ _ _ _ _ hres

theorem updateUser_images_tags (isEmail : String → Bool) (fault : Faults) (now : Time)
    (st : Store) (username : String) (body : Option CreateUserRequest) :
    (updateUser isEmail fault now st username body).2.images = st.images ∧
    (updateUser isEmail fault now st username body).2.tags = st.tags := by
  unfold updateUser
  cases bindCreateUserRequest isEmail body with
  | none => exact ⟨rfl, rfl⟩
  | some req =>
    dsimp only
    cases st.firstUser (fault 0) username with
    | error e => exact ⟨rfl, rfl⟩
    | ok u =>
      dsimp only [Store.saveUser]
      cases fault 1 <;> exact ⟨rfl, rfl⟩

theorem deleteUser_images_tags (fault : Faults) (now : Time) (st : Store)
    (username : String) :
    (deleteUser fault now st username).2.images = st.images ∧
    (deleteUser fault now st username).2.tags = st.tags := by
  unfold deleteUser
  cases st.firstUser (fault 0) username with
  | error e => exact ⟨rfl, rfl⟩
  | ok u =>
    dsimp only [Store.deleteUserRow, gormSoftDelete]
    cases fault 1 <;> exact ⟨rfl, rfl⟩

/-! ## The concrete library satisfies the contract -/

theorem splitFields_escapeField (f cur rest : List Char) :
    splitFields (escapeField f ++ '.' :: rest) cur false
      = (cur ++ f) :: splitFields rest [] false := by
  induction f generalizing cur with
  | nil => simp [escapeField, splitFields]
  | cons c cs ih =>
    by_cases hc : c = '.' ∨ c = '\\'
    · simp only [escapeField, hc, if_true, List.cons_append, splitFields]
      rw [ih]
      simp
    · have h1 : c ≠ '\\' := fun h => hc (Or.inr h)
      have h2 : c ≠ '.' := fun h => hc (Or.inl h)
      simp only [escapeField, hc, if_false, List.cons_append, splitFields, h1, h2]
      exact (ih (cur ++ [c])).trans (by simp)

theorem splitFields_joinFields (fs : List (List Char)) :
    splitFields (joinFields fs) [] false = fs := by
  induction fs with
  | nil => simp [joinFields, splitFields]
  | cons f fs ih =>
    simp only [joinFields]
    rw [splitFields_escapeField, ih]
    simp

theorem digitChar_spec (d : Nat) (hd : d < 10) :
    '0' ≤ digitChar d ∧ digitChar d ≤ '9' ∧ (digitChar d).toNat - '0'.toNat = d := by
  interval_cases d <;> decide

theorem parseDigits_append (l₁ l₂ : List Char) (acc : Nat) :
    parseDigits (l₁ ++ l₂) acc = (parseDigits l₁ acc).bind (fun a => parseDigits l₂ a) := by
  induction l₁ generalizing acc with
  | nil => simp [parseDigits]
  | cons c cs ih =>
    simp only [List.cons_append, parseDigits]
    split
    · exact ih _
    · simp

theorem parseDigits_digitChar (d acc : Nat) (hd : d < 10) :
    parseDigits [digitChar d] acc = some (acc * 10 + d) := by
  obtain ⟨h1, h2, h3⟩ := digitChar_spec d hd
  have h3' : (digitChar d).toNat - 48 = d := h3
  simp [parseDigits, h1, h2, h3']

theorem parseDigits_natDigits (fuel n : Nat) (h : n < fuel) :
    parseDigits (natDigits fuel n) 0 = some n := by
  induction fuel generalizing n with
  | zero => omega
  | succ fuel ih =>
    simp only [natDigits]
    by_cases hn : n < 10
    · rw [if_pos hn, parseDigits_digitChar n 0 hn]
      simp
    · rw [if_neg hn, parseDigits_append, ih (n / 10) (by omega)]
      simp only [Option.some_bind]
      rw [parseDigits_digitChar _ _ (Nat.mod_lt n (by norm_num))]
      congr 1
      omega

theorem readValue_valueFields (v : JSONValue) (rest : List (List Char)) :
    ∃ mark payload denom, valueFields v ++ rest = mark :: payload :: denom :: rest ∧
      readValue mark payload denom = some v := by
  cases v with
  | str s => exact ⟨['s'], s.data, [], rfl, by simp [readValue]⟩
  | other => exact ⟨['o'], [], [], rfl, by simp [readValue]⟩
  | frac q =>
    refine ⟨[if q.num < 0 then 'm' else 'p'], natDigits (q.num.natAbs + 1) q.num.natAbs,
      natDigits (q.den + 1) q.den, rfl, ?_⟩
    have hn := parseDigits_natDigits (q.num.natAbs + 1) q.num.natAbs (by omega)
    have hd := parseDigits_natDigits (q.den + 1) q.den (by omega)
    by_cases hneg : q.num < 0
    · simp only [readValue, hneg, if_true, hn, hd]
      simp only [List.cons.injEq, Char.reduceEq, and_true, if_false, if_true,
        Option.some_bind, Option.map_some', Option.some.injEq, JSONValue.frac.injEq]
      rw [Int.ofNat_natAbs_of_nonpos (le_of_lt hneg), neg_neg]
      exact Rat.mkRat_self q
    · simp only [readValue, hneg, if_false, hn, hd]
      simp only [List.cons.injEq, Char.reduceEq, and_true, if_false, if_true,
        Option.some_bind, Option.map_some', Option.some.injEq, JSONValue.frac.injEq]
      rw [Int.natAbs_of_nonneg (not_lt.mp hneg)]
      exact Rat.mkRat_self q
  | num n =>
    refine ⟨[if n < 0 then '-' else '+'], natDigits (n.natAbs + 1) n.natAbs, [], rfl, ?_⟩
    have hd := parseDigits_natDigits (n.natAbs + 1) n.natAbs (by omega)
    by_cases hn : n < 0
    · simp only [readValue, hn, if_true, hd]
      simp only [List.cons.injEq, Char.reduceEq, and_true, if_false, if_true, Option.map_some',
        Option.some.injEq, JSONValue.num.injEq]
      rw [Int.ofNat_natAbs_of_nonpos (le_of_lt hn)]
      simp
    · simp only [readValue, hn, if_false, hd]
      simp only [List.cons.injEq, Char.reduceEq, and_true, if_false, if_true, Option.map_some',
        Option.some.injEq, JSONValue.num.injEq]
      exact Int.natAbs_of_nonneg (not_lt.mp hn)

theorem readClaims_claimsFields (m : MapClaims) : readClaims (claimsFields m) = some m := by
  induction m with
  | nil => simp [claimsFields, readClaims]
  | cons kv rest ih =>
    obtain ⟨k, v⟩ := kv
    obtain ⟨mark, payload, denom, hf, hv⟩ := readValue_valueFields v (claimsFields rest)
    simp only [claimsFields]
    rw [hf]
    simp only [readClaims, hv, ih]

theorem demoLib_lawful : demoLib.Lawful := by
  intro t
  simp only [demoLib, tokenFields]
  rw [splitFields_joinFields]
  simp only [readToken, readClaims_claimsFields]
  rfl

/-! ## Lemmas on the authentication handlers -/

theorem removeFirst_append (old s : List Char) (hne : old ≠ []) :
    removeFirst old (old ++ s) = s := by
  cases old with
  | nil => exact absurd rfl hne
  | cons c cs =>
    have hp : (c :: cs).isPrefixOf (c :: (cs ++ s)) = true := by
      rw [List.isPrefixOf_iff_prefix]
      exact List.prefix_append (c :: cs) s
    show (if (c :: cs).isPrefixOf (c :: (cs ++ s)) = true
        then List.drop (c :: cs).length (c :: (cs ++ s))
        else c :: removeFirst (c :: cs) (cs ++ s)) = s
    rw [if_pos hp]
    exact List.drop_left (c :: cs) s

theorem stripBearer_bearer (token : String) : stripBearer ("Bearer " ++ token) = token := by
  unfold stripBearer
  rw [String.data_append, removeFirst_append _ _ (by decide)]

theorem bearer_ne_empty (token : String) : "Bearer " ++ token ≠ "" := by
  intro h
  have := congrArg String.data h
  rw [String.data_append] at this
  simp at this

/-- The claims that `login` and `getToken` put into a new token. -/
theorem issued_claims_valid (u r : String) (now now' : Time) (h : now' ≤ now + day) :
    ClaimsValid [("username", .str u), ("role", .str r), ("exp", .num (now + day))] now'
      = true := by
  have hexp : verifyExp (now + day) now' false = true := by
    unfold verifyExp
    split
    · rfl
    · simpa using h
  simp [ClaimsValid, VerifyExpiresAt, VerifyIssuedAt, VerifyNotBefore, List.lookup, hexp]

/-- A token signed by the service under `key` parses under `key` while it has not
expired. -/
theorem jwtParse_SignedString (lib : JWTLib) (hlaw : lib.Lawful) (key u r : String)
    (now now' : Time) (h : now' ≤ now + day) :
    jwtParse lib key now' (lib.SignedString "HS256"
        [("username", .str u), ("role", .str r), ("exp", .num (now + day))] key)
      = .ok { alg := "HS256",
              claims := [("username", .str u), ("role", .str r), ("exp", .num (now + day))],
              signature := lib.hmac "HS256" key
                [("username", .str u), ("role", .str r), ("exp", .num (now + day))] } := by
  unfold jwtParse JWTLib.SignedString
  rw [hlaw]
  simp [issued_claims_valid u r now now' h]

theorem truncate_intCast (n : Int) : truncate (n : ℚ) = n := by
  simp [truncate]

/-- A number of at least 1 keeps a whole part of at least 1, which does not exceed it. -/
theorem truncate_of_one_le (x : ℚ) (h : 1 ≤ x) : 1 ≤ truncate x ∧ ((truncate x : Int) : ℚ) ≤ x := by
  have hden : (0 : Int) < x.den := by exact_mod_cast x.den_pos
  have hnum : (x.den : Int) ≤ x.num := by
    have := Rat.le_def.mp h
    simpa using this
  have htr : truncate x = x.num / x.den := by
    unfold truncate
    exact Int.tdiv_eq_ediv (by omega) (by omega)
  rw [htr]
  refine ⟨Int.le_ediv_of_mul_le hden (by omega), ?_⟩
  have hmul : x.num / x.den * x.den ≤ x.num := Int.ediv_mul_le _ (by omega)
  have hdenq : (0 : ℚ) < (x.den : ℚ) := by exact_mod_cast x.den_pos
  calc ((x.num / (x.den : Int) : Int) : ℚ)
      ≤ (x.num : ℚ) / (x.den : ℚ) := by
        rw [le_div_iff₀ hdenq]
        exact_mod_cast hmul
    _ = x := Rat.num_div_den x

/-- A number of at most -1 keeps a whole part of at most -1. -/
theorem truncate_of_le_neg_one (x : ℚ) (h : x ≤ -1) : truncate x ≤ -1 := by
  have hden : (0 : Int) < x.den := by exact_mod_cast x.den_pos
  have hnum : x.num ≤ -(x.den : Int) := by
    have := Rat.le_def.mp h
    simpa using this
  have hneg : truncate x = -((-x.num) / (x.den : Int)) := by
    unfold truncate
    have h1 : x.num = -(-x.num) := by omega
    rw [h1, Int.neg_tdiv, Int.tdiv_eq_ediv (by omega) (by omega)]
    simp
  have hone : 1 ≤ (-x.num) / (x.den : Int) := Int.le_ediv_of_mul_le hden (by omega)
  rw [hneg]
  omega

/-- A token whose expiry claim, cut to whole seconds, is not 0 and lies in the past
does not parse. -/
theorem jwtParse_expired (lib : JWTLib) (key : String) (now : Time) (tokenString : String)
    (tok : Token) (x : ℚ) (hparse : lib.deserialize tokenString = some tok)
    (hexp : (tok.claims.lookup "exp").bind JSONValue.number? = some x)
    (hne : truncate x ≠ 0) (hlt : truncate x < now) :
    ∃ err, jwtParse lib key now tokenString = .error err := by
  have hverify : verifyExp (truncate x) now false = false := by
    unfold verifyExp
    rw [if_neg hne]
    simpa using hlt
  have hinvalid : ClaimsValid tok.claims now = false := by
    cases hl : tok.claims.lookup "exp" with
    | none => rw [hl] at hexp; simp at hexp
    | some v =>
      rw [hl] at hexp
      cases v with
      | str s => simp [JSONValue.number?] at hexp
      | other => simp [JSONValue.number?] at hexp
      | num n =>
        simp only [Option.some_bind, JSONValue.number?, Option.some.injEq] at hexp
        rw [← hexp, truncate_intCast] at hverify
        simp [ClaimsValid, VerifyExpiresAt, hl, hverify]
      | frac q =>
        simp only [Option.some_bind, JSONValue.number?, Option.some.injEq] at hexp
        rw [← hexp] at hverify
        simp [ClaimsValid, VerifyExpiresAt, hl, hverify]
  unfold jwtParse
  rw [hparse]
  by_cases halg : tok.alg = "HS256" ∨ tok.alg = "HS384" ∨ tok.alg = "HS512"
  · exact ⟨.ClaimsInvalid, by simp [halg, hinvalid]⟩
  · exact ⟨.Unverifiable, by simp [halg]⟩

/-- What a 200 answer of `login` contains. -/
theorem login_ok (lib : JWTLib) (config : Config) (fault : Faults) (now : Time) (st : Store)
    (body : Option LoginRequest) (b : Body)
    (h : login lib config fault now st body = ⟨StatusOK, b⟩) :
    ∃ req user, bindLoginRequest body = some req ∧
      st.firstUser (fault 0) req.Username = .ok user ∧ req.Password = user.Password ∧
      b = .tokenUser (lib.SignedString "HS256"
        [("username", .str user.Username), ("role", .str user.Role),
         ("exp", .num (now + day))] config.JWTSecret) user := by
  unfold login at h
  split at h
  · simp at h
  · rename_i req hreq
    split at h
    · simp at h
    · rename_i user huser
      split at h
      · simp at h
      · rename_i hpw
        simp only [Response.mk.injEq, true_and] at h
        exact ⟨req, user, hreq, huser, not_not.mp hpw, h.symm⟩

/-- What a 200 answer of `getToken` contains. -/
theorem getToken_ok (lib : JWTLib) (config : Config) (fault : Faults) (now : Time)
    (st : Store) (authHeader : String) (b : Body)
    (h : getToken lib config fault now st authHeader = ⟨StatusOK, b⟩) :
    ∃ tok username user,
      jwtParse lib config.JWTSecret now (stripBearer authHeader) = .ok tok ∧
      tok.claims.lookup "username" = some (.str username) ∧
      st.firstUser (fault 0) username = .ok user ∧
      b = .token (lib.SignedString "HS256"
        [("username", .str user.Username), ("role", .str user.Role),
         ("exp", .num (now + day))] config.JWTSecret) := by
  unfold getToken at h
  split at h
  · simp at h
  · dsimp only at h
    split at h
    · simp at h
    · rename_i tok htok
      split at h
      · rename_i username hname
        split at h
        · simp at h
        · rename_i user huser
          simp only [Response.mk.injEq, true_and] at h
          exact ⟨tok, username, user, htok, hname, huser, h.symm⟩
      · simp at h

/-! ## Claims on image deletion -/

/-- C6, as stated, fails: with two live images called `app/web`, a successful
`deleteImage` removes the first of them only, and `getImage` and `listImageTags`
then answer 200 with the second. -/
theorem deleteImage_twin_name_survives :
    (deleteImage noFaults 5 twinStore "app/web").1.status = StatusOK ∧
    getImage noFaults (deleteImage noFaults 5 twinStore "app/web").2 "app/web" =
      ⟨StatusOK, .image (mkImage 2 "app/web" none)⟩ ∧
    listImageTags noFaults (deleteImage noFaults 5 twinStore "app/web").2 "app/web" =
      ⟨StatusOK, .tags []⟩ := by
  decide

/-- C6 (amended): when the live images called `name` are one image, a successful
`deleteImage name` leaves a store in which `getImage name` and
`listImageTags name` answer 404 "Image not found", whatever the store does then,
every tag that refers to the image is soft-deleted, and so is the image row. -/
theorem deleteImage_removes_image_and_tags (fault fault₁ fault₂ : Faults) (now : Time)
    (st : Store) (name : String) (huniq : NameIsUnique st name)
    (hok : (deleteImage fault now st name).1.status = StatusOK) :
    ∃ image ∈ st.images, image.Name = name ∧ image.DeletedAt = none ∧
      getImage fault₁ (deleteImage fault now st name).2 name =
        ⟨StatusNotFound, .error "Image not found"⟩ ∧
      listImageTags fault₂ (deleteImage fault now st name).2 name =
        ⟨StatusNotFound, .error "Image not found"⟩ ∧
      (∀ t ∈ (deleteImage fault now st name).2.tags,
        t.ImageID = image.ID → t.DeletedAt ≠ none) ∧
      (∀ i ∈ (deleteImage fault now st name).2.images,
        i.ID = image.ID → i.DeletedAt ≠ none) := by
  rcases deleteImage_cases fault now st name with
    ⟨e, _, h⟩ | ⟨image, _, _, h⟩ | ⟨image, _, _, _, h⟩ | ⟨image, h0, _, _, h⟩
  · rw [h] at hok; simp at hok
  · rw [h] at hok; simp at hok
  · rw [h] at hok; simp at hok
  · rw [h]
    obtain ⟨_, hmem, hlive, hname⟩ := gormFirst_ok h0
    have hname' : image.Name = name := by simpa using hname
    have hgone : ∀ (f : Bool), ∃ e, Store.firstImage f
        { st with tags := tagsCascaded now image.ID st.tags,
                  images := imagesDeleted now image.ID st.images } name = .error e := by
      intro f
      apply gormFirst_error
      intro r hr hrlive
      obtain ⟨hr', hne⟩ := live_image_after_delete now image.ID st.images r hr hrlive
      by_cases hn : r.Name = name
      · exact absurd (huniq r hr' image hmem hrlive hlive hn hname') hne
      · simpa using hn
    refine ⟨image, hmem, hname', hlive, ?_, ?_, ?_, ?_⟩
    · obtain ⟨e, he⟩ := hgone (fault₁ 0)
      simp only [getImage, he]
    · obtain ⟨e, he⟩ := hgone (fault₂ 0)
      simp only [listImageTags, he]
    · intro t ht hid hl
      have := (live_tag_after_delete (fun t => t.ImageID == image.ID) now st.tags t ht hl).2
      simp [hid] at this
    · intro i hi hid hl
      exact (live_image_after_delete now image.ID st.images i hi hl).2 hid

/-- C6 (amended) at the scenario of the specification: image `app/web` with tags
`v1` and `v2`. -/
theorem deleteImage_removes_image_and_tags_demo :
    ∃ image ∈ demoStore.images, image.Name = "app/web" ∧ image.DeletedAt = none ∧
      getImage noFaults (deleteImage noFaults 5 demoStore "app/web").2 "app/web" =
        ⟨StatusNotFound, .error "Image not found"⟩ ∧
      listImageTags noFaults (deleteImage noFaults 5 demoStore "app/web").2 "app/web" =
        ⟨StatusNotFound, .error "Image not found"⟩ ∧
      (∀ t ∈ (deleteImage noFaults 5 demoStore "app/web").2.tags,
        t.ImageID = image.ID → t.DeletedAt ≠ none) ∧
      (∀ i ∈ (deleteImage noFaults 5 demoStore "app/web").2.images,
        i.ID = image.ID → i.DeletedAt ≠ none) :=
  deleteImage_removes_image_and_tags noFaults noFaults noFaults 5 demoStore "app/web"
    (by unfold NameIsUnique; decide) (by decide)

/-- C7, as stated, fails: when the delete of the image row fails after the tags were
deleted, `deleteImage` answers 500 and the tags stay deleted. -/
theorem deleteImage_failure_keeps_tag_deletes :
    (deleteImage failThird 5 demoStore "app/web").1 =
      ⟨StatusInternalServerError, .error "Failed to delete image"⟩ ∧
    (deleteImage failThird 5 demoStore "app/web").2 ≠ demoStore ∧
    (deleteImage failThird 5 demoStore "app/web").2.tags =
      [(mkTag 1 1 "v1").markDeleted 5, (mkTag 2 1 "v2").markDeleted 5] := by
  decide

/-- C7 (amended): when `deleteImage` reports a failure, the users and images are as
before the call; if the failure is at the image lookup or at the tag deletion the
whole store is as before; if it is at the deletion of the image row, the tags table
is the one before the call with the live tags of the image found marked deleted. -/
theorem deleteImage_failure_state (fault : Faults) (now : Time) (st : Store) (name : String)
    (hfail : (deleteImage fault now st name).1.status ≠ StatusOK) :
    (deleteImage fault now st name).2.users = st.users ∧
    (deleteImage fault now st name).2.images = st.images ∧
    ((deleteImage fault now st name).1.body ≠ .error "Failed to delete image" →
      (deleteImage fault now st name).2 = st) ∧
    ((deleteImage fault now st name).1.body = .error "Failed to delete image" →
      ∃ image, st.firstImage (fault 0) name = .ok image ∧
        (deleteImage fault now st name).2.tags = tagsCascaded now image.ID st.tags) := by
  rcases deleteImage_cases fault now st name with
    ⟨e, _, h⟩ | ⟨image, _, _, h⟩ | ⟨image, h0, _, _, h⟩ | ⟨image, _, _, _, h⟩
  · rw [h]; exact ⟨rfl, rfl, fun _ => rfl, fun hb => absurd hb (by simp)⟩
  · rw [h]; exact ⟨rfl, rfl, fun _ => rfl, fun hb => absurd hb (by simp)⟩
  · rw [h]; exact ⟨rfl, rfl, fun hb => absurd rfl hb, fun _ => ⟨image, h0, rfl⟩⟩
  · rw [h] at hfail; exact absurd rfl hfail

/-- C7 (amended) at a failing image deletion on `app/web`. -/
theorem deleteImage_failure_state_demo :
    (deleteImage failThird 5 demoStore "app/web").2.users = demoStore.users ∧
    (deleteImage failThird 5 demoStore "app/web").2.images = demoStore.images ∧
    ((deleteImage failThird 5 demoStore "app/web").1.body ≠ .error "Failed to delete image" →
      (deleteImage failThird 5 demoStore "app/web").2 = demoStore) ∧
    ((deleteImage failThird 5 demoStore "app/web").1.body = .error "Failed to delete image" →
      ∃ image, demoStore.firstImage (failThird 0) "app/web" = .ok image ∧
        (deleteImage failThird 5 demoStore "app/web").2.tags =
          tagsCascaded 5 image.ID demoStore.tags) :=
  deleteImage_failure_state failThird 5 demoStore "app/web" (by decide)

/-- C8: the predicate "every tag that is not deleted belongs to an image that is not
deleted" is preserved by `deleteImage` (whichever of its calls fail),
`deleteImageTag`, `createUser`, `updateUser` and `deleteUser`. -/
theorem tags_never_outlive_image (isEmail : String → Bool) (fault : Faults) (now : Time)
    (st : Store) (h : TagsHaveImage st) :
    (∀ name, TagsHaveImage (deleteImage fault now st name).2) ∧
    (∀ name tagName, TagsHaveImage (deleteImageTag fault now st name tagName).2) ∧
    (∀ body, TagsHaveImage (createUser isEmail fault now st body).2) ∧
    (∀ username body, TagsHaveImage (updateUser isEmail fault now st username body).2) ∧
    (∀ username, TagsHaveImage (deleteUser fault now st username).2) := by
  refine ⟨?_, ?_, ?_, ?_, ?_⟩
  · intro name
    rcases deleteImage_cases fault now st name with
      ⟨e, _, hd⟩ | ⟨image, _, _, hd⟩ | ⟨image, _, _, _, hd⟩ | ⟨image, _, _, _, hd⟩
    · rw [hd]; exact h
    · rw [hd]; exact h
    · rw [hd]
      exact TagsHaveImage_delete_tags st (fun t => t.ImageID == image.ID) now h
    · rw [hd]
      intro t ht hlive
      obtain ⟨ht', hc⟩ :=
        live_tag_after_delete (fun t => t.ImageID == image.ID) now st.tags t ht hlive
      obtain ⟨i, hi, hid, hil⟩ := h t ht' hlive
      have hne : i.ID ≠ image.ID := by
        rw [hid]
        simpa using hc
      exact ⟨i, image_kept_after_delete now image.ID st.images i hi hne, hid, hil⟩
  · intro name tagName
    rcases deleteImageTag_store fault now st name tagName with hd | ⟨tag, hd⟩
    · rw [hd]; exact h
    · rw [hd]
      exact TagsHaveImage_delete_tags st (fun t => t.ID == tag.ID) now h
  · intro body
    obtain ⟨hi, ht⟩ := createUser_images_tags isEmail fault now st body
    exact TagsHaveImage_congr st _ hi ht h
  · intro username body
    obtain ⟨hi, ht⟩ := updateUser_images_tags isEmail fault now st username body
    exact TagsHaveImage_congr st _ hi ht h
  · intro username
    obtain ⟨hi, ht⟩ := deleteUser_images_tags fault now st username
    exact TagsHaveImage_congr st _ hi ht h

/-- C8 at the store with image `app/web` and its two tags, with the image deletion
failing half-way. -/
theorem tags_never_outlive_image_demo :
    (∀ name, TagsHaveImage (deleteImage failThird 5 demoStore name).2) ∧
    (∀ name tagName, TagsHaveImage (deleteImageTag failThird 5 demoStore name tagName).2) ∧
    (∀ body, TagsHaveImage (createUser (fun _ => true) failThird 5 demoStore body).2) ∧
    (∀ username body,
      TagsHaveImage (updateUser (fun _ => true) failThird 5 demoStore username body).2) ∧
    (∀ username, TagsHaveImage (deleteUser failThird 5 demoStore username).2) :=
  tags_never_outlive_image (fun _ => true) failThird 5 demoStore
    (by unfold TagsHaveImage; decide)

/-! ## Claims on tokens -/

/-- C1: a token issued by `login` and presented to `verifyToken` under the same
secret, at any time up to its expiry (in particular at once), is accepted, and the
claims returned carry the username and the role of the user it was issued to. -/
theorem login_then_verify (lib : JWTLib) (hlaw : lib.Lawful) (config : Config)
    (fault : Faults) (now now' : Time) (st : Store) (body : Option LoginRequest)
    (token : String) (user : User)
    (hlogin : login lib config fault now st body = ⟨StatusOK, .tokenUser token user⟩)
    (htime : now' ≤ now + day) :
    ∃ claims, verifyToken lib config now' ("Bearer " ++ token) =
        ⟨StatusOK, .claims true claims⟩ ∧
      claims.lookup "username" = some (.str user.Username) ∧
      claims.lookup "role" = some (.str user.Role) := by
  obtain ⟨req, user', _, _, _, hb⟩ := login_ok lib config fault now st body _ hlogin
  simp only [Body.tokenUser.injEq] at hb
  obtain ⟨htok, huser⟩ := hb
  subst huser
  subst htok
  refine ⟨[("username", .str user.Username), ("role", .str user.Role),
    ("exp", .num (now + day))], ?_, by simp [List.lookup], by simp [List.lookup]⟩
  unfold verifyToken
  rw [if_neg (bearer_ne_empty _)]
  simp only [stripBearer_bearer]
  rw [jwtParse_SignedString lib hlaw config.JWTSecret user.Username user.Role now now' htime]

/-- C1 for `alice` logging in and verifying at once. -/
theorem login_then_verify_demo :
    ∃ claims, verifyToken demoLib demoConfig 1700000000
        ("Bearer " ++ demoLib.SignedString "HS256" (demoClaims "admin" 1700086400)
          demoConfig.JWTSecret) = ⟨StatusOK, .claims true claims⟩ ∧
      claims.lookup "username" = some (.str (mkUser 1 "alice" "s3cr3t" "admin" none).Username) ∧
      claims.lookup "role" = some (.str (mkUser 1 "alice" "s3cr3t" "admin" none).Role) :=
  login_then_verify demoLib demoLib_lawful demoConfig noFaults 1700000000 1700000000
    demoStore (some ⟨"alice", "s3cr3t"⟩) _ _ (by decide) (by decide)

/-- C2, as stated, fails: a token whose expiry claim is 0, or half a second after
0, both long before the current time, is accepted by `verifyToken`, and `getToken`
issues a new token for it. -/
theorem zero_expiry_token_accepted :
    (0 : Int) < 1700000000 ∧
    verifyToken demoLib demoConfig 1700000000 (demoHeader "admin" 0) =
      ⟨StatusOK, .claims true (demoClaims "admin" 0)⟩ ∧
    getToken demoLib demoConfig noFaults 1700000000 demoStore (demoHeader "admin" 0) =
      ⟨StatusOK, .token (demoLib.SignedString "HS256" (demoClaims "admin" 1700086400)
        demoConfig.JWTSecret)⟩ ∧
    mkRat 1 2 < ((1700000000 : Int) : ℚ) ∧
    (verifyToken demoLib demoConfig 1700000000 (demoHeaderAt (mkRat 1 2))).status =
      StatusOK ∧
    getToken demoLib demoConfig noFaults 1700000000 demoStore (demoHeaderAt (mkRat 1 2)) =
      ⟨StatusOK, .token (demoLib.SignedString "HS256" (demoClaims "admin" 1700086400)
        demoConfig.JWTSecret)⟩ := by
  decide

/-- C2 (amended): a token whose expiry claim is a number that, cut to whole seconds
as the library's `int64` conversion cuts it, is not 0 and is earlier than the
current time, is rejected by `verifyToken` and by `getToken` with the same 401
error answer, so `getToken` issues no token for it.  Every expiry of at least one
second that lies in the past is such a number (`past_expiry_is_rejected`). -/
theorem expired_token_rejected (lib : JWTLib) (config : Config) (fault : Faults)
    (now : Time) (st : Store) (authHeader : String) (tok : Token) (x : ℚ)
    (hparse : lib.deserialize (stripBearer authHeader) = some tok)
    (hexp : (tok.claims.lookup "exp").bind JSONValue.number? = some x)
    (hne : truncate x ≠ 0) (hlt : truncate x < now) :
    ∃ msg, verifyToken lib config now authHeader = ⟨StatusUnauthorized, .error msg⟩ ∧
      getToken lib config fault now st authHeader = ⟨StatusUnauthorized, .error msg⟩ := by
  obtain ⟨err, herr⟩ :=
    jwtParse_expired lib config.JWTSecret now (stripBearer authHeader) tok x hparse hexp hne hlt
  unfold verifyToken getToken
  by_cases hempty : authHeader = ""
  · exact ⟨"No token provided", by simp [hempty], by simp [hempty]⟩
  · exact ⟨"Invalid token", by simp [hempty, herr], by simp [hempty, herr]⟩

/-- C2 (amended) for a token of `alice` that expired at 1600000000.5. -/
theorem expired_token_rejected_demo :
    ∃ msg, verifyToken demoLib demoConfig 1700000000 (demoHeaderAt (mkRat 3200000001 2)) =
        ⟨StatusUnauthorized, .error msg⟩ ∧
      getToken demoLib demoConfig noFaults 1700000000 demoStore
        (demoHeaderAt (mkRat 3200000001 2)) = ⟨StatusUnauthorized, .error msg⟩ :=
  expired_token_rejected demoLib demoConfig noFaults 1700000000 demoStore
    (demoHeaderAt (mkRat 3200000001 2))
    { alg := "HS256",
      claims := [("username", .str "alice"), ("role", .str "admin"),
        ("exp", .frac (mkRat 3200000001 2))],
      signature := demoLib.hmac "HS256" demoConfig.JWTSecret
        [("username", .str "alice"), ("role", .str "admin"),
         ("exp", .frac (mkRat 3200000001 2))] }
    (mkRat 3200000001 2) (by decide) (by decide) (by decide) (by decide)

/-- A past expiry of at least one second, whole or not, meets the conditions of
`expired_token_rejected`; so does a past expiry of at most minus one second when the
clock is not before 1970. -/
theorem past_expiry_is_rejected (x : ℚ) (now : Time) (hlt : x < (now : ℚ))
    (h : 1 ≤ x ∨ (x ≤ -1 ∧ 0 ≤ now)) : truncate x ≠ 0 ∧ truncate x < now := by
  rcases h with h | ⟨h, hnow⟩
  · obtain ⟨h1, h2⟩ := truncate_of_one_le x h
    refine ⟨by omega, ?_⟩
    have : ((truncate x : Int) : ℚ) < (now : ℚ) := lt_of_le_of_lt h2 hlt
    exact_mod_cast this
  · have hle := truncate_of_le_neg_one x h
    have hnow' : (0 : Int) ≤ now := hnow
    exact ⟨by omega, by omega⟩

/-- C3: for a token that parses as valid and names user `u`, and a store in which
`u` has role `r`, `getToken` answers 200 with a token signed under the configured
secret whose claims are username `u`, role `r` and expiry one day ahead; the role
in the presented token plays no part. -/
theorem refresh_carries_stored_role (lib : JWTLib) (hlaw : lib.Lawful) (config : Config)
    (fault : Faults) (now : Time) (st : Store) (authHeader : String) (tok : Token)
    (u r : String) (hheader : authHeader ≠ "")
    (hvalid : jwtParse lib config.JWTSecret now (stripBearer authHeader) = .ok tok)
    (hname : tok.claims.lookup "username" = some (.str u))
    (hstore : fault 0 = false) (hrole : UserHasRole st u r) :
    ∃ t, getToken lib config fault now st authHeader = ⟨StatusOK, .token (lib.serialize t)⟩ ∧
      lib.deserialize (lib.serialize t) = some t ∧
      t.claims = [("username", .str u), ("role", .str r), ("exp", .num (now + day))] ∧
      t.alg = "HS256" ∧ t.signature = lib.hmac "HS256" config.JWTSecret t.claims := by
  obtain ⟨⟨row, hrow, hlive, hrowname⟩, hall⟩ := hrole
  obtain ⟨user, huser⟩ := gormFirst_exists User.toModel (fun x => x.Username == u) st.users
    row hrow hlive (by simpa using hrowname)
  obtain ⟨_, humem, hulive, huname⟩ := gormFirst_ok huser
  have huname' : user.Username = u := by simpa using huname
  have hurole : user.Role = r := hall user humem hulive huname'
  refine ⟨{ alg := "HS256",
            claims := [("username", .str u), ("role", .str r), ("exp", .num (now + day))],
            signature := lib.hmac "HS256" config.JWTSecret
              [("username", .str u), ("role", .str r), ("exp", .num (now + day))] },
    ?_, hlaw _, rfl, rfl, rfl⟩
  unfold getToken
  rw [if_neg hheader]
  simp only [hvalid, hname, hstore, Store.firstUser, huser, huname', hurole]
  rfl

/-- C3 for `alice`, whose token says role `user` while the store says `admin`. -/
theorem refresh_carries_stored_role_demo :
    ∃ t, getToken demoLib demoConfig noFaults 1700000000 demoStore
        (demoHeader "user" 1700001000) = ⟨StatusOK, .token (demoLib.serialize t)⟩ ∧
      demoLib.deserialize (demoLib.serialize t) = some t ∧
      t.claims = [("username", .str "alice"), ("role", .str "admin"),
        ("exp", .num (1700000000 + day))] ∧
      t.alg = "HS256" ∧ t.signature = demoLib.hmac "HS256" demoConfig.JWTSecret t.claims :=
  refresh_carries_stored_role demoLib demoLib_lawful demoConfig noFaults 1700000000
    demoStore (demoHeader "user" 1700001000)
    { alg := "HS256", claims := demoClaims "user" 1700001000,
      signature := demoLib.hmac "HS256" demoConfig.JWTSecret (demoClaims "user" 1700001000) }
    "alice" "admin" (by decide) (by decide) (by decide) (by decide)
    (by unfold UserHasRole; decide)

/-- C4: a token that `login` or `getToken` issues at time `now` is the serialisation
of a token whose `exp` claim is `now + 86400`. -/
theorem issued_token_expiry (lib : JWTLib) (hlaw : lib.Lawful) (config : Config)
    (fault : Faults) (now : Time) (st : Store) (token : String)
    (hissued :
      (∃ body user, login lib config fault now st body = ⟨StatusOK, .tokenUser token user⟩) ∨
      (∃ authHeader, getToken lib config fault now st authHeader = ⟨StatusOK, .token token⟩)) :
    ∃ t, token = lib.serialize t ∧ lib.deserialize token = some t ∧
      t.claims.lookup "exp" = some (.num (now + 86400)) := by
  rcases hissued with ⟨body, user, h⟩ | ⟨authHeader, h⟩
  · obtain ⟨req, user', _, _, _, hb⟩ := login_ok lib config fault now st body _ h
    simp only [Body.tokenUser.injEq] at hb
    obtain ⟨htok, _⟩ := hb
    subst htok
    exact ⟨_, rfl, hlaw _, by simp [List.lookup]⟩
  · obtain ⟨tok, username, user, _, _, _, hb⟩ :=
      getToken_ok lib config fault now st authHeader _ h
    simp only [Body.token.injEq] at hb
    subst hb
    exact ⟨_, rfl, hlaw _, by simp [List.lookup]⟩

/-- C4 for a refresh at 1700000000 of a token that expires at 1700001000. -/
theorem issued_token_expiry_demo :
    ∃ t, demoLib.SignedString "HS256" (demoClaims "admin" 1700086400) demoConfig.JWTSecret
        = demoLib.serialize t ∧
      demoLib.deserialize (demoLib.SignedString "HS256" (demoClaims "admin" 1700086400)
        demoConfig.JWTSecret) = some t ∧
      t.claims.lookup "exp" = some (.num (1700000000 + 86400)) :=
  issued_token_expiry demoLib demoLib_lawful demoConfig noFaults 1700000000 demoStore _
    (Or.inr ⟨demoHeader "user" 1700001000, by decide⟩)

/-! ## Claims on users -/

/-- When no row of the users table carries the username, the first of two
valid `createUser` requests for it answers 201 with the stored row (the fields of
the request, `Active = true`, not deleted), and the second answers 409
"Username already exists" and leaves the store as the first call left it. -/
theorem createUser_twice (isEmail : String → Bool) (now₁ now₂ : Time) (st : Store)
    (req₁ req₂ : CreateUserRequest)
    (hvalid₁ : bindCreateUserRequest isEmail (some req₁) = some req₁)
    (hvalid₂ : bindCreateUserRequest isEmail (some req₂) = some req₂)
    (hsame : req₂.Username = req₁.Username)
    (hfresh : ∀ row ∈ st.users, row.Username ≠ req₁.Username) :
    ∃ row : User,
      createUser isEmail noFaults now₁ st (some req₁) =
        (⟨StatusCreated, .user row⟩, { st with users := st.users ++ [row] }) ∧
      row.Username = req₁.Username ∧ row.Password = req₁.Password ∧
      row.Email = req₁.Email ∧ row.Role = req₁.Role ∧ row.Active = true ∧
      row.DeletedAt = none ∧
      createUser isEmail noFaults now₂ { st with users := st.users ++ [row] } (some req₂) =
        (⟨StatusConflict, .error "Username already exists"⟩,
          { st with users := st.users ++ [row] }) := by
  obtain ⟨e, he⟩ : ∃ e, st.firstUser false req₁.Username = .error e :=
    gormFirst_error _ _ _ _ (fun r hr _ => by simpa using hfresh r hr)
  have hany : st.users.any (fun r => r.Username == req₁.Username) = false := by
    rw [List.any_eq_false]
    intro r hr
    simpa using hfresh r hr
  have hrow : ∃ row : User, row =
      { ID := nextID st.users, CreatedAt := now₁, UpdatedAt := now₁, DeletedAt := none,
        Username := req₁.Username, Password := req₁.Password, Email := req₁.Email,
        Role := req₁.Role, Active := true } :=
    ⟨_, rfl⟩
  obtain ⟨row, hrow⟩ := hrow
  refine ⟨row, ?_, by rw [hrow], by rw [hrow], by rw [hrow], by rw [hrow], by rw [hrow],
    by rw [hrow], ?_⟩
  · unfold createUser
    simp only [hvalid₁, noFaults, he, Store.createUserRow, hany, Bool.false_eq_true, if_false]
    rw [hrow]
  · obtain ⟨u, hu⟩ := gormFirst_exists User.toModel (fun x => x.Username == req₁.Username)
      (st.users ++ [row]) row (by simp) (by rw [hrow]) (by simp [hrow])
    unfold createUser
    simp only [hvalid₂, hsame, Store.firstUser, noFaults, hu]

/-- Two requests to create `bob` in a store that holds only `alice`: 201, then 409. -/
theorem createUser_twice_demo :
    ∃ row : User,
      createUser demoIsEmail noFaults 5 demoStore (some ⟨"bob", "pw", "bob@example.org", "user"⟩) =
        (⟨StatusCreated, .user row⟩, { demoStore with users := demoStore.users ++ [row] }) ∧
      row.Username = "bob" ∧ row.Password = "pw" ∧
      row.Email = "bob@example.org" ∧ row.Role = "user" ∧ row.Active = true ∧
      row.DeletedAt = none ∧
      createUser demoIsEmail noFaults 6 { demoStore with users := demoStore.users ++ [row] }
          (some ⟨"bob", "other", "b@example.org", "admin"⟩) =
        (⟨StatusConflict, .error "Username already exists"⟩,
          { demoStore with users := demoStore.users ++ [row] }) :=
  createUser_twice demoIsEmail 5 6 demoStore ⟨"bob", "pw", "bob@example.org", "user"⟩
    ⟨"bob", "other", "b@example.org", "admin"⟩ (by decide) (by decide) (by decide) (by decide)

/-- C5 at the failing input: in the store left by creating and deleting `alice`
no user is called `alice` (none is listed, and a lookup finds none), yet each of two
valid `createUser` calls for `alice` answers 500 "Failed to create user" and stores
nothing: there is no success and no Conflict. -/
theorem createUser_twice_after_delete :
    (deleteUser noFaults 2
        (createUser demoIsEmail noFaults 1 emptyStore (some aliceRequest)).2 "alice").2
      = formerAliceStore ∧
    listUsers noFaults formerAliceStore = ⟨StatusOK, .users []⟩ ∧
    formerAliceStore.firstUser false "alice" = .error .ErrRecordNotFound ∧
    bindCreateUserRequest demoIsEmail (some aliceRequest) = some aliceRequest ∧
    createUser demoIsEmail noFaults 3 formerAliceStore (some aliceRequest) =
      (⟨StatusInternalServerError, .error "Failed to create user"⟩, formerAliceStore) ∧
    createUser demoIsEmail noFaults 4
        (createUser demoIsEmail noFaults 3 formerAliceStore (some aliceRequest)).2
        (some aliceRequest) =
      (⟨StatusInternalServerError, .error "Failed to create user"⟩, formerAliceStore) := by
  decide

/-- A request body with an empty `password` does not pass the binding, whatever
else it holds: `updateUser` answers 400 and leaves the store as it was. -/
theorem updateUser_empty_password (isEmail : String → Bool) (fault : Faults) (now : Time)
    (st : Store) (username : String) (req : CreateUserRequest) (hpw : req.Password = "") :
    updateUser isEmail fault now st username (some req) =
      (⟨StatusBadRequest, .error "Invalid request"⟩, st) := by
  unfold updateUser
  simp [bindCreateUserRequest, hpw]

/-- C9 at the failing input: updating `alice` with a new email and role and no
secret answers 400 "Invalid request"; her email and role are not changed. -/
theorem updateUser_omitted_secret_rejected :
    updateUser demoIsEmail noFaults 5 demoStore "alice"
        (some ⟨"alice", "", "new@example.org", "user"⟩) =
      (⟨StatusBadRequest, .error "Invalid request"⟩, demoStore) := by
  decide

/-- Requests that pass the binding: a request that passes the binding (so its password
is not empty) for a live user answers 200 with the new email, role and password,
and for a username with no live row answers 404 and changes nothing. -/
theorem updateUser_bound_request (isEmail : String → Bool) (fault : Faults) (now : Time)
    (st : Store) (username : String) (req : CreateUserRequest)
    (hvalid : bindCreateUserRequest isEmail (some req) = some req) :
    ((∀ row ∈ st.users, row.DeletedAt = none → row.Username ≠ username) →
      updateUser isEmail fault now st username (some req) =
        (⟨StatusNotFound, .error "User not found"⟩, st)) ∧
    (∀ user, st.firstUser (fault 0) username = .ok user → fault 1 = false →
      ∃ st', updateUser isEmail fault now st username (some req) =
        (⟨StatusOK, .user { user with Email := req.Email, Role := req.Role,
                                         Password := req.Password, UpdatedAt := now }⟩, st')) := by
  have hpw : req.Password ≠ "" := by
    unfold bindCreateUserRequest at hvalid
    dsimp only at hvalid
    split at hvalid
    · rename_i h; exact h.2.1
    · simp at hvalid
  constructor
  · intro habsent
    obtain ⟨e, he⟩ : ∃ e, st.firstUser (fault 0) username = .error e :=
      gormFirst_error _ _ _ _ (fun r hr hl => by simpa using habsent r hr hl)
    unfold updateUser
    simp only [hvalid, he]
  · intro user huser hf
    unfold updateUser
    simp only [hvalid, huser, Store.saveUser, hf]
    rw [if_pos hpw]
    exact ⟨_, rfl⟩

/-! ## Claims on metrics -/

theorem rdbGet_absent (now : Time) (cache : Cache) (key : String)
    (h : KeyAbsent now cache key) : rdbGet false now cache key = .error .Nil := by
  unfold rdbGet
  have : cache.find? (fun e => e.key == key && e.live now) = none := by
    rw [List.find?_eq_none]
    intro e he
    by_cases hk : e.key = key
    · simp [hk, h e he hk]
    · simp [hk]
  simp [this]

theorem rdbGet_holds (now : Time) (cache : Cache) (key v : String)
    (h : KeyHolds now cache key v) : rdbGet false now cache key = .ok v := by
  obtain ⟨⟨e, he, hk, hl⟩, hall⟩ := h
  unfold rdbGet
  cases hf : cache.find? (fun e => e.key == key && e.live now) with
  | none =>
    rw [List.find?_eq_none] at hf
    have := hf e he
    simp [hk, hl] at this
  | some e' =>
    have hp := List.find?_some hf
    have hm := List.mem_of_find?_eq_some hf
    simp only [Bool.and_eq_true, beq_iff_eq] at hp
    simp [hall e' hm hp.1 hp.2]

theorem digitChar_not_sign (d : Nat) (hd : d < 10) :
    digitChar d ≠ '-' ∧ digitChar d ≠ '+' := by
  interval_cases d <;> decide

theorem natDigits_head (fuel n : Nat) (h : n < fuel) :
    ∃ d rest, d < 10 ∧ natDigits fuel n = digitChar d :: rest := by
  induction fuel generalizing n with
  | zero => omega
  | succ fuel ih =>
    simp only [natDigits]
    by_cases hn : n < 10
    · exact ⟨n, [], hn, by rw [if_pos hn]⟩
    · obtain ⟨d, rest, hd, hrest⟩ := ih (n / 10) (by omega)
      exact ⟨d, rest ++ [digitChar (n % 10)], hd, by rw [if_neg hn, hrest]; rfl⟩

/-- Reading the decimal form of an `int64` gives the integer back. -/
theorem atoi_itoa (m : Int) (hlo : -2 ^ 63 ≤ m) (hhi : m < 2 ^ 63) : atoi (itoa m) = some m := by
  have hd := parseDigits_natDigits (m.natAbs + 1) m.natAbs (by omega)
  obtain ⟨d, rest, hd10, hhead⟩ := natDigits_head (m.natAbs + 1) m.natAbs (by omega)
  by_cases hneg : m < 0
  · have hne : natDigits (m.natAbs + 1) m.natAbs ≠ [] := by rw [hhead]; simp
    have hbound : m.natAbs ≤ 2 ^ 63 := by omega
    simp only [itoa, hneg, if_true, atoi, hne, if_false, hd, Option.some_bind, hbound]
    rw [Int.ofNat_natAbs_of_nonpos (le_of_lt hneg)]
    simp
  · obtain ⟨h1, h2⟩ := digitChar_not_sign d hd10
    have hbound : m.natAbs < 2 ^ 63 := by omega
    have hval : atoi ⟨digitChar d :: rest⟩ =
        (parseDigits (digitChar d :: rest) 0).bind
          (fun n => if n < 2 ^ 63 then some (n : Int) else none) := by
      unfold atoi
      split
      · rename_i heq; simp at heq
      · rename_i ds heq
        simp only [List.cons.injEq] at heq
        exact absurd heq.1 h1
      · rename_i ds heq
        simp only [List.cons.injEq] at heq
        exact absurd heq.1 h2
      · rfl
    simp only [itoa, hneg, if_false]
    rw [hhead, hval, ← hhead, hd]
    simp only [Option.some_bind, hbound, if_true, Option.some.injEq]
    exact Int.natAbs_of_nonneg (not_lt.mp hneg)

/-- The value `getRegistryMetrics` computes for one counter meets `CounterReport`. -/
theorem counter_report (fault : Bool) (now : Time) (cache : Cache) (key : String) :
    CounterReport fault now cache key
      (match rdbGetInt fault now cache key with
       | .error _ => 0
       | .ok n => n) := by
  cases fault with
  | true =>
    have : rdbGetInt true now cache key = .error .ErrConnection := by
      simp [rdbGetInt, rdbGet]
    rw [this]
    exact ⟨fun _ => rfl, fun _ => rfl, fun _ _ _ => rfl, fun _ _ h => by simp at h,
      fun _ _ _ h => by simp at h⟩
  | false =>
    refine ⟨fun h => by simp at h, ?_, ?_, ?_, ?_⟩
    · intro h
      simp [rdbGetInt, rdbGet_absent now cache key h]
    · intro v h hv
      simp [rdbGetInt, rdbGet_holds now cache key v h, hv]
    · intro v m _ h hv
      simp [rdbGetInt, rdbGet_holds now cache key v h, hv]
    · intro m hlo hhi _ h
      simp [rdbGetInt, rdbGet_holds now cache key (itoa m) h, atoi_itoa m hlo hhi]

/-- C10: `getRegistryMetrics` answers 200 in every cache state and under every
failure of the cache reads, and each counter it reports meets `CounterReport`:
0 when the read fails, when the key is not set or has expired, or when the value
is not an integer, and the stored integer otherwise (the integer the value denotes,
which for a value that is the decimal form of an `int64` is that integer). -/
theorem getRegistryMetrics_never_fails (fault : Faults) (now : Time) (cache : Cache) :
    ∃ images tags, getRegistryMetrics fault now cache = ⟨StatusOK, .metrics images tags now⟩ ∧
      CounterReport (fault 0) now cache "registry:image_count" images ∧
      CounterReport (fault 1) now cache "registry:tag_count" tags :=
  ⟨_, _, rfl, counter_report (fault 0) now cache "registry:image_count",
    counter_report (fault 1) now cache "registry:tag_count"⟩

/-- C10 on a cache whose image counter is 42 and whose tag counter has expired. -/
theorem getRegistryMetrics_demo :
    getRegistryMetrics noFaults 200 demoCache = ⟨StatusOK, .metrics 42 0 200⟩ ∧
    getRegistryMetrics noFaults 200 [] = ⟨StatusOK, .metrics 0 0 200⟩ ∧
    getRegistryMetrics (fun _ => true) 50 demoCache = ⟨StatusOK, .metrics 0 0 50⟩ ∧
    getRegistryMetrics noFaults 50 demoCache = ⟨StatusOK, .metrics 42 7 50⟩ := by
  decide

/-! ## Claims on the extraction of the bearer token -/

/-- Where the marker does not occur, nothing is removed. -/
theorem removeFirst_absent (old l : List Char) (h : ¬ List.IsInfix old l) :
    removeFirst old l = l := by
  induction l with
  | nil => rfl
  | cons c cs ih =>
    have hp : old.isPrefixOf (c :: cs) = false := by
      rw [Bool.eq_false_iff]
      intro hp
      rw [List.isPrefixOf_iff_prefix] at hp
      exact h hp.isInfix
    have hcs : ¬ List.IsInfix old cs := fun hi =>
      h (hi.trans (List.suffix_cons c cs).isInfix)
    simp only [removeFirst, hp, Bool.false_eq_true, if_false, ih hcs]

/-- The occurrence that is removed is the first one, wherever it starts. -/
theorem removeFirst_first (old a b : List Char) (hne : old ≠ [])
    (hfirst : ∀ pre post, a ++ old ++ b = pre ++ old ++ post → a.length ≤ pre.length) :
    removeFirst old (a ++ old ++ b) = a ++ b := by
  induction a with
  | nil =>
    rw [List.nil_append, List.nil_append]
    exact removeFirst_append old b hne
  | cons c cs ih =>
    have hp : old.isPrefixOf (c :: (cs ++ old ++ b)) = false := by
      rw [Bool.eq_false_iff]
      intro hp
      rw [List.isPrefixOf_iff_prefix] at hp
      obtain ⟨post, hpost⟩ := hp
      have := hfirst [] post (by simpa using hpost.symm)
      simp at this
    have hrec : ∀ pre post, cs ++ old ++ b = pre ++ old ++ post → cs.length ≤ pre.length := by
      intro pre post heq
      have := hfirst (c :: pre) post (by simp [heq])
      simpa using this
    show removeFirst old (c :: (cs ++ old ++ b)) = c :: (cs ++ b)
    simp only [removeFirst, hp, Bool.false_eq_true, if_false, ih hrec]

theorem stripBearer_absent (s : String) (h : NoBearer s) : stripBearer s = s := by
  unfold stripBearer
  exact congrArg String.mk (removeFirst_absent bearer s.data h)

theorem verifyToken_missing_iff (lib : JWTLib) (config : Config) (now : Time)
    (authHeader : String) :
    verifyToken lib config now authHeader = ⟨StatusUnauthorized, .error "No token provided"⟩
      ↔ authHeader = "" := by
  unfold verifyToken
  constructor
  · intro h
    by_contra hne
    rw [if_neg hne] at h
    dsimp only at h
    split at h <;> simp at h
  · intro h
    rw [if_pos h]

theorem getToken_missing_iff (lib : JWTLib) (config : Config) (fault : Faults) (now : Time)
    (st : Store) (authHeader : String) :
    getToken lib config fault now st authHeader =
        ⟨StatusUnauthorized, .error "No token provided"⟩
      ↔ authHeader = "" := by
  unfold getToken
  constructor
  · intro h
    by_contra hne
    rw [if_neg hne] at h
    dsimp only at h
    split at h
    · simp at h
    · split at h
      · split at h <;> simp at h
      · simp at h
  · intro h
    rw [if_pos h]

/-- C16: the extraction removes the first occurrence of the marker wherever it
starts and leaves a header without the marker as it is, so for a token `s` without
the marker the headers `"Bearer " ++ s` and `s` give the same extracted token and,
when `s` is not empty, the same answer of `verifyToken` and of `getToken`; the
answer "No token provided" is given to the empty header and to no other. -/
theorem bearer_marker_not_required (lib : JWTLib) (config : Config) (fault : Faults)
    (now : Time) (st : Store) (s : String) (hs : NoBearer s) :
    stripBearer ("Bearer " ++ s) = stripBearer s ∧ stripBearer s = s ∧
    (s ≠ "" →
      verifyToken lib config now ("Bearer " ++ s) = verifyToken lib config now s ∧
      getToken lib config fault now st ("Bearer " ++ s) =
        getToken lib config fault now st s) ∧
    (∀ a b : String,
      (∀ pre post, a.data ++ bearer ++ b.data = pre ++ bearer ++ post →
        a.data.length ≤ pre.length) →
      stripBearer (a ++ "Bearer " ++ b) = a ++ b) ∧
    (∀ h, verifyToken lib config now h = ⟨StatusUnauthorized, .error "No token provided"⟩
      ↔ h = "") ∧
    (∀ h, getToken lib config fault now st h =
        ⟨StatusUnauthorized, .error "No token provided"⟩ ↔ h = "") := by
  have h1 : stripBearer ("Bearer " ++ s) = s := stripBearer_bearer s
  have h2 : stripBearer s = s := stripBearer_absent s hs
  refine ⟨by rw [h1, h2], h2, ?_, ?_, verifyToken_missing_iff lib config now,
    getToken_missing_iff lib config fault now st⟩
  · intro hne
    unfold verifyToken getToken
    rw [if_neg (bearer_ne_empty s), if_neg hne, if_neg (bearer_ne_empty s), if_neg hne]
    simp only [h1, h2, and_self]
  · intro a b hfirst
    unfold stripBearer
    have := removeFirst_first bearer a.data b.data (by decide) hfirst
    simp only [String.data_append]
    exact congrArg String.mk this

/-- C16 for the token of `alice`: with and without the marker the answer is the
same. -/
theorem bearer_marker_not_required_demo :
    stripBearer ("Bearer " ++ "HS256.sig.username.s.alice.") =
      stripBearer "HS256.sig.username.s.alice." ∧
    stripBearer "HS256.sig.username.s.alice." = "HS256.sig.username.s.alice." ∧
    ("HS256.sig.username.s.alice." ≠ "" →
      verifyToken demoLib demoConfig 1700000000 ("Bearer " ++ "HS256.sig.username.s.alice.") =
        verifyToken demoLib demoConfig 1700000000 "HS256.sig.username.s.alice." ∧
      getToken demoLib demoConfig noFaults 1700000000 demoStore
          ("Bearer " ++ "HS256.sig.username.s.alice.") =
        getToken demoLib demoConfig noFaults 1700000000 demoStore
          "HS256.sig.username.s.alice.") ∧
    (∀ a b : String,
      (∀ pre post, a.data ++ bearer ++ b.data = pre ++ bearer ++ post →
        a.data.length ≤ pre.length) →
      stripBearer (a ++ "Bearer " ++ b) = a ++ b) ∧
    (∀ h, verifyToken demoLib demoConfig 1700000000 h =
        ⟨StatusUnauthorized, .error "No token provided"⟩ ↔ h = "") ∧
    (∀ h, getToken demoLib demoConfig noFaults 1700000000 demoStore h =
        ⟨StatusUnauthorized, .error "No token provided"⟩ ↔ h = "") :=
  bearer_marker_not_required demoLib demoConfig noFaults 1700000000 demoStore
    "HS256.sig.username.s.alice." (by unfold NoBearer bearer; decide)

/-! ## Claims on login, tag deletion and tag listing -/

theorem leastBy_le {α : Type} (key : α → Nat) (l : List α) (m : α)
    (h : leastBy key l = some m) : ∀ x ∈ l, key m ≤ key x := by
  induction l generalizing m with
  | nil => simp [leastBy] at h
  | cons a as ih =>
    simp only [leastBy] at h
    cases hrec : leastBy key as with
    | none =>
      rw [hrec] at h
      simp only [Option.some.injEq] at h
      subst h
      rw [leastBy_eq_none] at hrec
      subst hrec
      intro x hx
      simp only [List.mem_singleton] at hx
      rw [hx]
    | some m' =>
      rw [hrec] at h
      have hm' := ih m' hrec
      intro x hx
      rcases List.mem_cons.mp hx with hxa | hxas
      · subst hxa
        by_cases hle : key x ≤ key m'
        · simp only [hle, if_true, Option.some.injEq] at h
          rw [← h]
        · simp only [hle, if_false, Option.some.injEq] at h
          rw [← h]
          omega
      · by_cases hle : key a ≤ key m'
        · simp only [hle, if_true, Option.some.injEq] at h
          rw [← h]
          exact le_trans hle (hm' x hxas)
        · simp only [hle, if_false, Option.some.injEq] at h
          rw [← h]
          exact hm' x hxas

/-- With unique live usernames, the lookup of a live user returns that very row. -/
theorem firstUser_of_live (st : Store) (huniq : LiveUsernamesUnique st) (row : User)
    (hmem : row ∈ st.users) (hlive : row.DeletedAt = none) :
    st.firstUser false row.Username = .ok row := by
  obtain ⟨r, hr⟩ := gormFirst_exists User.toModel (fun x => x.Username == row.Username)
    st.users row hmem hlive (by simp)
  obtain ⟨_, hrmem, hrlive, hrname⟩ := gormFirst_ok hr
  have : r = row := huniq r hrmem row hmem hrlive hlive (by simpa using hrname)
  rw [← this]
  unfold Store.firstUser
  rw [this] at hr ⊢
  exact hr

/-- C11, as stated, fails: `alice` exists and the empty secret is not her secret,
yet `login` answers 400 "Invalid request", not Unauthorized, because the binding
rejects an empty password before any lookup. -/
theorem login_empty_secret_bad_request :
    mkUser 1 "alice" "s3cr3t" "admin" none ∈ demoStore.users ∧
    (mkUser 1 "alice" "s3cr3t" "admin" none).Password ≠ "" ∧
    login demoLib demoConfig noFaults 1700000000 demoStore (some ⟨"alice", ""⟩) =
      ⟨StatusBadRequest, .error "Invalid request"⟩ := by
  decide

/-- C11 (amended): for a username and a secret that are not empty, a store lookup
that succeeds, and a store in which live usernames are unique, `login` answers 200
with a token and the user record exactly when a live user with that username has
that very secret stored, and answers 401 "Invalid credentials" otherwise (unknown
username or another secret).  `login` only reads the store: it makes one `First`
query and returns no new store. -/
theorem login_iff_credentials (lib : JWTLib) (config : Config) (fault : Faults)
    (now : Time) (st : Store) (u pw : String) (hu : u ≠ "") (hpw : pw ≠ "")
    (hstore : fault 0 = false) (huniq : LiveUsernamesUnique st) :
    ((∃ token user, login lib config fault now st (some ⟨u, pw⟩) =
        ⟨StatusOK, .tokenUser token user⟩) ↔
      ∃ row ∈ st.users, row.DeletedAt = none ∧ row.Username = u ∧ row.Password = pw) ∧
    (∀ row ∈ st.users, row.DeletedAt = none → row.Username = u → row.Password = pw →
      login lib config fault now st (some ⟨u, pw⟩) =
        ⟨StatusOK, .tokenUser (lib.SignedString "HS256"
          [("username", .str u), ("role", .str row.Role), ("exp", .num (now + day))]
          config.JWTSecret) row⟩) ∧
    ((¬ ∃ row ∈ st.users, row.DeletedAt = none ∧ row.Username = u ∧ row.Password = pw) →
      login lib config fault now st (some ⟨u, pw⟩) =
        ⟨StatusUnauthorized, .error "Invalid credentials"⟩) := by
  have hbind : bindLoginRequest (some ⟨u, pw⟩) = some ⟨u, pw⟩ := by
    simp [bindLoginRequest, hu, hpw]
  have hyes : ∀ row ∈ st.users, row.DeletedAt = none → row.Username = u →
      row.Password = pw →
      login lib config fault now st (some ⟨u, pw⟩) =
        ⟨StatusOK, .tokenUser (lib.SignedString "HS256"
          [("username", .str u), ("role", .str row.Role), ("exp", .num (now + day))]
          config.JWTSecret) row⟩ := by
    intro row hmem hlive hname hpass
    have hfirst := firstUser_of_live st huniq row hmem hlive
    rw [hname] at hfirst
    unfold login
    simp only [hbind, hstore, hfirst, hpass, hname, ne_eq, not_true_eq_false, if_false]
  have hno : (¬ ∃ row ∈ st.users, row.DeletedAt = none ∧ row.Username = u ∧
      row.Password = pw) →
      login lib config fault now st (some ⟨u, pw⟩) =
        ⟨StatusUnauthorized, .error "Invalid credentials"⟩ := by
    intro hnone
    unfold login
    simp only [hbind, hstore]
    cases hfirst : st.firstUser false u with
    | error e => rfl
    | ok user =>
      obtain ⟨_, hmem, hlive, hname⟩ := gormFirst_ok hfirst
      have hname' : user.Username = u := by simpa using hname
      have hne : pw ≠ user.Password := fun h => hnone ⟨user, hmem, hlive, hname', h.symm⟩
      simp only [hne, ne_eq, not_false_eq_true, if_true]
  refine ⟨⟨?_, ?_⟩, hyes, hno⟩
  · rintro ⟨token, user, hlogin⟩
    by_contra hnone
    rw [hno hnone] at hlogin
    simp at hlogin
  · rintro ⟨row, hmem, hlive, hname, hpass⟩
    exact ⟨_, _, hyes row hmem hlive hname hpass⟩

/-- C11 (amended) for `alice` and her secret. -/
theorem login_iff_credentials_demo :
    ((∃ token user, login demoLib demoConfig noFaults 1700000000 demoStore
        (some ⟨"alice", "s3cr3t"⟩) = ⟨StatusOK, .tokenUser token user⟩) ↔
      ∃ row ∈ demoStore.users, row.DeletedAt = none ∧ row.Username = "alice" ∧
        row.Password = "s3cr3t") ∧
    (∀ row ∈ demoStore.users, row.DeletedAt = none → row.Username = "alice" →
      row.Password = "s3cr3t" →
      login demoLib demoConfig noFaults 1700000000 demoStore (some ⟨"alice", "s3cr3t"⟩) =
        ⟨StatusOK, .tokenUser (demoLib.SignedString "HS256"
          [("username", .str "alice"), ("role", .str row.Role),
           ("exp", .num (1700000000 + day))]
          demoConfig.JWTSecret) row⟩) ∧
    ((¬ ∃ row ∈ demoStore.users, row.DeletedAt = none ∧ row.Username = "alice" ∧
        row.Password = "s3cr3t") →
      login demoLib demoConfig noFaults 1700000000 demoStore (some ⟨"alice", "s3cr3t"⟩) =
        ⟨StatusUnauthorized, .error "Invalid credentials"⟩) :=
  login_iff_credentials demoLib demoConfig noFaults 1700000000 demoStore "alice" "s3cr3t"
    (by decide) (by decide) (by decide) (by unfold LiveUsernamesUnique; decide)

/-- A login body whose username or password is empty does not pass the binding:
the answer is 400 "Invalid request". -/
theorem login_empty_field (lib : JWTLib) (config : Config) (fault : Faults) (now : Time)
    (st : Store) (u pw : String) (h : u = "" ∨ pw = "") :
    login lib config fault now st (some ⟨u, pw⟩) =
      ⟨StatusBadRequest, .error "Invalid request"⟩ := by
  unfold login
  rcases h with h | h <;> simp [bindLoginRequest, h]

/-- What a 200 answer of `deleteImageTag` tells: the image and the tag it found, and
the store it leaves. -/
theorem deleteImageTag_ok (fault : Faults) (now : Time) (st : Store)
    (name tagName : String)
    (h : (deleteImageTag fault now st name tagName).1.status = StatusOK) :
    ∃ image tag, st.firstImage (fault 0) name = .ok image ∧
      st.firstTag (fault 1) image.ID tagName = .ok tag ∧
      (deleteImageTag fault now st name tagName).2 =
        { st with tags := st.tags.map (fun r =>
            if r.DeletedAt.isNone && r.ID == tag.ID then r.markDeleted now else r) } := by
  unfold deleteImageTag at h ⊢
  cases h0 : st.firstImage (fault 0) name with
  | error e => rw [h0] at h; simp at h
  | ok image =>
    rw [h0] at h
    dsimp only at h ⊢
    cases h1 : st.firstTag (fault 1) image.ID tagName with
    | error e => rw [h1] at h; simp at h
    | ok tag =>
      rw [h1] at h
      dsimp only at h ⊢
      cases h2 : fault 2 with
      | true => simp [Store.deleteTagRow, gormSoftDelete, h2] at h
      | false =>
        exact ⟨image, tag, rfl, h1, by simp [Store.deleteTagRow, gormSoftDelete, h2]⟩

/-- C12: a successful `deleteImageTag name tagName` found a live image called
`name` and a live tag called `tagName` that refers to it; the store it leaves has
the same users and images, and its tags table is the old one with that tag row
marked deleted and every row with another primary key unchanged.  When no live
image is called `name`, or no live tag called `tagName` refers to a live image
called `name`, the answer is 404 and the store is unchanged. -/
theorem deleteImageTag_frame (fault : Faults) (now : Time) (st : Store)
    (name tagName : String) :
    ((deleteImageTag fault now st name tagName).1.status = StatusOK →
      ∃ image ∈ st.images, ∃ tag ∈ st.tags,
        image.DeletedAt = none ∧ image.Name = name ∧
        tag.DeletedAt = none ∧ tag.ImageID = image.ID ∧ tag.Name = tagName ∧
        (deleteImageTag fault now st name tagName).2.users = st.users ∧
        (deleteImageTag fault now st name tagName).2.images = st.images ∧
        (deleteImageTag fault now st name tagName).2.tags =
          st.tags.map (fun r =>
            if r.DeletedAt = none ∧ r.ID = tag.ID then r.markDeleted now else r)) ∧
    ((∀ i ∈ st.images, i.DeletedAt = none → i.Name ≠ name) →
      deleteImageTag fault now st name tagName =
        (⟨StatusNotFound, .error "Image not found"⟩, st)) ∧
    ((∀ i ∈ st.images, i.DeletedAt = none → i.Name = name →
        ∀ t ∈ st.tags, t.DeletedAt = none → t.ImageID = i.ID → t.Name ≠ tagName) →
      (deleteImageTag fault now st name tagName).1.status = StatusNotFound ∧
      (deleteImageTag fault now st name tagName).2 = st) := by
  refine ⟨?_, ?_, ?_⟩
  · intro hok
    obtain ⟨image, tag, h0, h1, hst⟩ := deleteImageTag_ok fault now st name tagName hok
    obtain ⟨_, himem, hilive, hiname⟩ := gormFirst_ok h0
    obtain ⟨_, htmem, htlive, htcond⟩ := gormFirst_ok h1
    simp only [Bool.and_eq_true, beq_iff_eq] at htcond
    refine ⟨image, himem, tag, htmem, hilive, by simpa using hiname, htlive, htcond.1,
      htcond.2, ?_, ?_, ?_⟩
    · rw [hst]
    · rw [hst]
    · rw [hst]
      simp
  · intro habsent
    obtain ⟨e, he⟩ : ∃ e, st.firstImage (fault 0) name = .error e :=
      gormFirst_error _ _ _ _ (fun r hr hl => by simpa using habsent r hr hl)
    unfold deleteImageTag
    rw [he]
  · intro habsent
    unfold deleteImageTag
    cases h0 : st.firstImage (fault 0) name with
    | error e => exact ⟨rfl, rfl⟩
    | ok image =>
      obtain ⟨_, himem, hilive, hiname⟩ := gormFirst_ok h0
      have hiname' : image.Name = name := by simpa using hiname
      obtain ⟨e, he⟩ : ∃ e, st.firstTag (fault 1) image.ID tagName = .error e :=
        gormFirst_error _ _ _ _ (fun r hr hl => by
          by_cases hid : r.ImageID = image.ID
          · simpa [hid] using habsent image himem hilive hiname' r hr hl hid
          · simp [hid])
      dsimp only
      rw [he]
      exact ⟨rfl, rfl⟩

/-- C12 for the deletion of tag `v1` of `app/web`: tag `v2` and the image stay. -/
theorem deleteImageTag_frame_demo :
    ∃ image ∈ demoStore.images, ∃ tag ∈ demoStore.tags,
      image.DeletedAt = none ∧ image.Name = "app/web" ∧
      tag.DeletedAt = none ∧ tag.ImageID = image.ID ∧ tag.Name = "v1" ∧
      (deleteImageTag noFaults 5 demoStore "app/web" "v1").2.users = demoStore.users ∧
      (deleteImageTag noFaults 5 demoStore "app/web" "v1").2.images = demoStore.images ∧
      (deleteImageTag noFaults 5 demoStore "app/web" "v1").2.tags =
        demoStore.tags.map (fun r =>
          if r.DeletedAt = none ∧ r.ID = tag.ID then r.markDeleted 5 else r) :=
  (deleteImageTag_frame noFaults 5 demoStore "app/web" "v1").1 (by decide)

/-- C13: when the store calls succeed, `listImageTags name` answers 404
"Image not found" exactly when no live image is called `name`; otherwise it answers
200 with exactly the live tags whose `ImageID` is the key of the live image called
`name` that has the least key, in table order (none of them when it has no tag). -/
theorem listImageTags_spec (fault : Faults) (st : Store) (name : String)
    (h0 : fault 0 = false) (h1 : fault 1 = false) :
    (listImageTags fault st name = ⟨StatusNotFound, .error "Image not found"⟩ ↔
      ∀ i ∈ st.images, i.DeletedAt = none → i.Name ≠ name) ∧
    ((∃ i ∈ st.images, i.DeletedAt = none ∧ i.Name = name) →
      ∃ image ∈ st.images, image.DeletedAt = none ∧ image.Name = name ∧
        (∀ j ∈ st.images, j.DeletedAt = none → j.Name = name → image.ID ≤ j.ID) ∧
        listImageTags fault st name =
          ⟨StatusOK, .tags (st.tags.filter
            (fun t => t.DeletedAt.isNone && t.ImageID == image.ID))⟩ ∧
        ∀ t, t ∈ st.tags.filter (fun t => t.DeletedAt.isNone && t.ImageID == image.ID) ↔
          t ∈ st.tags ∧ t.DeletedAt = none ∧ t.ImageID = image.ID) := by
  have hfound : ∀ image, st.firstImage false name = .ok image →
      listImageTags fault st name =
        ⟨StatusOK, .tags (st.tags.filter
          (fun t => t.DeletedAt.isNone && t.ImageID == image.ID))⟩ := by
    intro image himg
    unfold listImageTags
    simp only [h0, h1, himg, Store.findTags, gormFind, Bool.false_eq_true, if_false]
  constructor
  · constructor
    · intro h404 i hi hlive hname
      obtain ⟨image, himg⟩ := gormFirst_exists Image.toModel (fun x => x.Name == name)
        st.images i hi hlive (by simpa using hname)
      rw [hfound image himg] at h404
      simp at h404
    · intro habsent
      obtain ⟨e, he⟩ : ∃ e, st.firstImage (fault 0) name = .error e :=
        gormFirst_error _ _ _ _ (fun r hr hl => by simpa using habsent r hr hl)
      unfold listImageTags
      rw [he]
  · rintro ⟨i, hi, hlive, hname⟩
    obtain ⟨image, himg⟩ := gormFirst_exists Image.toModel (fun x => x.Name == name)
      st.images i hi hlive (by simpa using hname)
    obtain ⟨_, himem, hilive, hiname⟩ := gormFirst_ok himg
    refine ⟨image, himem, hilive, by simpa using hiname, ?_, hfound image himg, ?_⟩
    · intro j hj hjlive hjname
      unfold gormFirst at himg
      simp only [Bool.false_eq_true, if_false] at himg
      split at himg
      · simp at himg
      · rename_i m hm
        simp only [Except.ok.injEq] at himg
        subst himg
        exact leastBy_le _ _ m hm j (by simp [List.mem_filter, hj, hjlive, hjname])
    · intro t
      simp [List.mem_filter]

/-- C13 for `app/web` and its two tags. -/
theorem listImageTags_spec_demo :
    (listImageTags noFaults demoStore "app/web" = ⟨StatusNotFound, .error "Image not found"⟩ ↔
      ∀ i ∈ demoStore.images, i.DeletedAt = none → i.Name ≠ "app/web") ∧
    ((∃ i ∈ demoStore.images, i.DeletedAt = none ∧ i.Name = "app/web") →
      ∃ image ∈ demoStore.images, image.DeletedAt = none ∧ image.Name = "app/web" ∧
        (∀ j ∈ demoStore.images, j.DeletedAt = none → j.Name = "app/web" →
          image.ID ≤ j.ID) ∧
        listImageTags noFaults demoStore "app/web" =
          ⟨StatusOK, .tags (demoStore.tags.filter
            (fun t => t.DeletedAt.isNone && t.ImageID == image.ID))⟩ ∧
        ∀ t, t ∈ demoStore.tags.filter
            (fun t => t.DeletedAt.isNone && t.ImageID == image.ID) ↔
          t ∈ demoStore.tags ∧ t.DeletedAt = none ∧ t.ImageID = image.ID) :=
  listImageTags_spec noFaults demoStore "app/web" (by decide) (by decide)

/-! ## Claims on the uniqueness of usernames -/

theorem createUserRow_ok (fault : Bool) (now : Time) (st st1 : Store) (user row : User)
    (h : st.createUserRow fault now user = .ok (row, st1)) :
    st1.users = st.users ++ [row] ∧ row.Username = user.Username ∧
      ∀ r ∈ st.users, r.Username ≠ user.Username := by
  unfold Store.createUserRow at h
  split at h
  · simp at h
  · split at h
    · simp at h
    · rename_i hany
      simp only [Except.ok.injEq, Prod.mk.injEq] at h
      obtain ⟨hrow, hst⟩ := h
      subst hst
      subst hrow
      refine ⟨rfl, rfl, ?_⟩
      intro r hr hname
      apply hany
      rw [List.any_eq_true]
      exact ⟨r, hr, by simpa using hname⟩

/-- Appending a row whose username no row carries keeps live usernames unique. -/
theorem unique_after_create (st : Store) (row : User) (h : LiveUsernamesUnique st)
    (hfresh : ∀ r ∈ st.users, r.Username ≠ row.Username) :
    LiveUsernamesUnique { st with users := st.users ++ [row] } := by
  intro a ha b hb la lb hname
  simp only [List.mem_append, List.mem_singleton] at ha hb
  rcases ha with ha | ha <;> rcases hb with hb | hb
  · exact h a ha b hb la lb hname
  · subst hb
    exact absurd hname (hfresh a ha)
  · subst ha
    exact absurd hname.symm (hfresh b hb)
  · rw [ha, hb]

/-- Writing a live row back under its key and username keeps live usernames unique. -/
theorem unique_after_save (st : Store) (user row : User) (h : LiveUsernamesUnique st)
    (hmem : user ∈ st.users) (hlive : user.DeletedAt = none)
    (hname : row.Username = user.Username) :
    LiveUsernamesUnique { st with users := st.users.map (fun r =>
      if r.DeletedAt.isNone && r.ID == user.ID then row else r) } := by
  intro a' ha' b' hb' la lb hab
  simp only [List.mem_map] at ha' hb'
  obtain ⟨a, ha, haa⟩ := ha'
  obtain ⟨b, hb, hbb⟩ := hb'
  by_cases ca : (a.DeletedAt.isNone && a.ID == user.ID) = true <;>
    by_cases cb : (b.DeletedAt.isNone && b.ID == user.ID) = true
  · rw [if_pos ca] at haa
    rw [if_pos cb] at hbb
    rw [← haa, ← hbb]
  · rw [if_pos ca] at haa
    rw [if_neg cb] at hbb
    subst haa
    subst hbb
    have hbu : b = user := h b hb user hmem lb hlive (by rw [← hab, hname])
    rw [hbu] at cb
    simp [hlive] at cb
  · rw [if_neg ca] at haa
    rw [if_pos cb] at hbb
    subst haa
    subst hbb
    have hau : a = user := h a ha user hmem la hlive (by rw [hab, hname])
    rw [hau] at ca
    simp [hlive] at ca
  · rw [if_neg ca] at haa
    rw [if_neg cb] at hbb
    subst haa
    subst hbb
    exact h a ha b hb la lb hab

/-- Soft-deleting rows keeps live usernames unique. -/
theorem unique_after_delete (st : Store) (cond : User → Bool) (now : Time)
    (h : LiveUsernamesUnique st) :
    LiveUsernamesUnique { st with users := st.users.map (fun r =>
      if r.DeletedAt.isNone && cond r then r.markDeleted now else r) } := by
  have key : ∀ a', a' ∈ st.users.map (fun r =>
      if r.DeletedAt.isNone && cond r then r.markDeleted now else r) →
      a'.DeletedAt = none → a' ∈ st.users := by
    intro a' ha' la
    rw [List.mem_map] at ha'
    obtain ⟨a, ha, haa⟩ := ha'
    by_cases c : (a.DeletedAt.isNone && cond a) = true
    · rw [if_pos c] at haa
      subst haa
      simp [User.markDeleted] at la
    · rw [if_neg c] at haa
      subst haa
      exact ha
  intro a ha b hb la lb hab
  exact h a (key a ha la) b (key b hb lb) la lb hab

/-- Uniqueness of live usernames is preserved by `createUser`, `updateUser` and
`deleteUser`, whichever store calls fail. -/
theorem live_usernames_unique_preserved (isEmail : String → Bool) (fault : Faults)
    (now : Time) (st : Store) (h : LiveUsernamesUnique st) :
    (∀ body, LiveUsernamesUnique (createUser isEmail fault now st body).2) ∧
    (∀ username body, LiveUsernamesUnique (updateUser isEmail fault now st username body).2) ∧
    (∀ username, LiveUsernamesUnique (deleteUser fault now st username).2) := by
  refine ⟨?_, ?_, ?_⟩
  · intro body
    unfold createUser
    cases bindCreateUserRequest isEmail body with
    | none => exact h
    | some req =>
      dsimp only
      cases st.firstUser (fault 0) req.Username with
      | ok u => exact h
      | error e =>
        dsimp only
        split
        · exact h
        · rename_i row st1 hres
          obtain ⟨husers, hname, hfresh⟩ := createUserRow_ok _ _ _ _ _ _ hres
          have := unique_after_create st row h (by rw [hname]; exact hfresh)
          intro a ha b hb
          rw [husers] at ha hb
          exact this a ha b hb
  · intro username body
    unfold updateUser
    cases bindCreateUserRequest isEmail body with
    | none => exact h
    | some req =>
      dsimp only
      cases hfirst : st.firstUser (fault 0) username with
      | error e => exact h
      | ok user =>
        obtain ⟨_, hmem, hlive, _⟩ := gormFirst_ok hfirst
        dsimp only [Store.saveUser]
        cases fault 1 with
        | true => exact h
        | false =>
          by_cases hpw : req.Password ≠ ""
          · simp only [Bool.false_eq_true, if_false, if_pos hpw]
            exact unique_after_save st user _ h hmem hlive rfl
          · simp only [Bool.false_eq_true, if_false, if_neg hpw]
            exact unique_after_save st user _ h hmem hlive rfl
  · intro username
    unfold deleteUser
    cases st.firstUser (fault 0) username with
    | error e => exact h
    | ok user =>
      dsimp only [Store.deleteUserRow, gormSoftDelete]
      cases fault 1 with
      | true => exact h
      | false => exact unique_after_delete st (fun u => u.ID == user.ID) now h

/-- C14 at the failing input: `alice` is created in an empty store and deleted;
the store then shows no user, yet creating `alice` again answers 500
"Failed to create user" and stores nothing, because the unique index on
`username` still holds the soft-deleted row. -/
theorem recreate_deleted_username_fails :
    (createUser demoIsEmail noFaults 1 emptyStore (some aliceRequest)).1.status
      = StatusCreated ∧
    (deleteUser noFaults 2
        (createUser demoIsEmail noFaults 1 emptyStore (some aliceRequest)).2 "alice").1
      = ⟨StatusOK, .message "User deleted successfully"⟩ ∧
    listUsers noFaults (deleteUser noFaults 2
        (createUser demoIsEmail noFaults 1 emptyStore (some aliceRequest)).2 "alice").2
      = ⟨StatusOK, .users []⟩ ∧
    createUser demoIsEmail noFaults 3 (deleteUser noFaults 2
        (createUser demoIsEmail noFaults 1 emptyStore (some aliceRequest)).2 "alice").2
        (some aliceRequest)
      = (⟨StatusInternalServerError, .error "Failed to create user"⟩,
          (deleteUser noFaults 2
            (createUser demoIsEmail noFaults 1 emptyStore (some aliceRequest)).2 "alice").2) := by
  decide

end Registry

namespace Monitor

/-! ## The bubble sort of `getTopProcesses` -/

theorem swapIfLess_short (a : List ProcessStats) (j : Nat) (h : a.length ≤ j + 1) :
    swapIfLess a j = a := by
  unfold swapIfLess
  have : a[j + 1]? = none := List.getElem?_eq_none (by omega)
  rw [this]
  split <;> simp_all

theorem foldl_swapIfLess_short (k s : Nat) (a : List ProcessStats) (h : a.length ≤ s + 1) :
    (List.range' s k).foldl swapIfLess a = a := by
  induction k generalizing s with
  | zero => rfl
  | succ k ih =>
    rw [List.range'_succ, List.foldl_cons, swapIfLess_short a s h]
    exact ih (s + 1) (by omega)

theorem swapIfLess_at (pre rest : List ProcessStats) (x y : ProcessStats) :
    swapIfLess (pre ++ x :: y :: rest) pre.length =
      if x.CPUPercent < y.CPUPercent then pre ++ y :: x :: rest
      else pre ++ x :: y :: rest := by
  unfold swapIfLess
  have h1 : (pre ++ x :: y :: rest)[pre.length]? = some x := by
    rw [List.getElem?_append_right (le_refl _)]
    simp
  have h2 : (pre ++ x :: y :: rest)[pre.length + 1]? = some y := by
    rw [List.getElem?_append_right (by omega)]
    simp
  rw [h1, h2]
  dsimp only
  split
  · simp [List.set_append]
  · rfl

/-- The inner loop run from index `pre.length` is a pass over the rest of the list. -/
theorem foldl_swapIfLess_eq (k : Nat) (pre rest : List ProcessStats) :
    (List.range' pre.length k).foldl swapIfLess (pre ++ rest) = pre ++ bubblePass k rest := by
  induction k generalizing pre rest with
  | zero =>
    cases rest with
    | nil => rfl
    | cons x r => cases r <;> rfl
  | succ k ih =>
    rw [List.range'_succ, List.foldl_cons]
    cases rest with
    | nil =>
      rw [swapIfLess_short _ _ (by simp),
        foldl_swapIfLess_short _ _ _
          (by simp only [List.length_append, List.length_cons, List.length_nil]; omega)]
      rfl
    | cons x r =>
      cases r with
      | nil =>
        rw [swapIfLess_short _ _ (by simp),
          foldl_swapIfLess_short _ _ _
            (by simp only [List.length_append, List.length_cons, List.length_nil]; omega)]
        rfl
      | cons y rest =>
        rw [swapIfLess_at]
        by_cases hlt : x.CPUPercent < y.CPUPercent
        · rw [if_pos hlt]
          have := ih (pre ++ [y]) (x :: rest)
          simp only [List.length_append, List.length_singleton, List.append_assoc,
            List.singleton_append] at this
          rw [this]
          simp only [bubblePass, hlt, if_true]
        · rw [if_neg hlt]
          have := ih (pre ++ [x]) (y :: rest)
          simp only [List.length_append, List.length_singleton, List.append_assoc,
            List.singleton_append] at this
          rw [this]
          simp only [bubblePass, hlt, if_false]

theorem innerLoop_eq (a : List ProcessStats) (i : Nat) :
    innerLoop a i = bubblePass (a.length - i - 1) a := by
  unfold innerLoop
  rw [List.range_eq_range']
  exact foldl_swapIfLess_eq (a.length - i - 1) [] a

theorem bubblePass_perm (k : Nat) (l : List ProcessStats) : (bubblePass k l).Perm l := by
  induction k generalizing l with
  | zero =>
    cases l with
    | nil => exact List.Perm.refl _
    | cons x r => cases r <;> exact List.Perm.refl _
  | succ k ih =>
    cases l with
    | nil => exact List.Perm.refl _
    | cons x r =>
      cases r with
      | nil => exact List.Perm.refl _
      | cons y rest =>
        simp only [bubblePass]
        split
        · exact ((ih (x :: rest)).cons y).trans (List.Perm.swap x y rest)
        · exact (ih (y :: rest)).cons x

/-- A pass that stays inside the first part of the list leaves the rest alone. -/
theorem bubblePass_append (k : Nat) (l₁ l₂ : List ProcessStats) (h : k + 1 ≤ l₁.length) :
    bubblePass k (l₁ ++ l₂) = bubblePass k l₁ ++ l₂ := by
  induction k generalizing l₁ with
  | zero =>
    cases l₁ with
    | nil => simp at h
    | cons x r =>
      cases r with
      | nil => cases l₂ <;> rfl
      | cons y rest => rfl
  | succ k ih =>
    cases l₁ with
    | nil => simp at h
    | cons x r =>
      cases r with
      | nil => simp at h
      | cons y rest =>
        simp only [List.length_cons] at h
        simp only [List.cons_append, bubblePass]
        split
        · have := ih (x :: rest) (by simp only [List.length_cons]; omega)
          exact congrArg (List.cons y) this
        · have := ih (y :: rest) (by simp only [List.length_cons]; omega)
          exact congrArg (List.cons x) this

/-- A full pass puts an entry with the least CPU share last. -/
theorem bubblePass_least_last (n : Nat) (l : List ProcessStats) (h : l.length = n + 1) :
    ∃ front m, bubblePass n l = front ++ [m] ∧ ∀ x ∈ l, m.CPUPercent ≤ x.CPUPercent := by
  induction n generalizing l with
  | zero =>
    match l, h with
    | [x], _ => exact ⟨[], x, rfl, by simp⟩
  | succ n ih =>
    match l, h with
    | x :: y :: rest, h =>
      simp only [List.length_cons] at h
      simp only [bubblePass]
      by_cases hlt : x.CPUPercent < y.CPUPercent
      · rw [if_pos hlt]
        obtain ⟨front, m, hpass, hmin⟩ := ih (x :: rest) (by simp only [List.length_cons]; omega)
        refine ⟨y :: front, m, by rw [hpass]; rfl, ?_⟩
        intro z hz
        simp only [List.mem_cons] at hz
        rcases hz with hz | hz | hz
        · rw [hz]; exact hmin x (by simp)
        · rw [hz]; exact le_trans (hmin x (by simp)) (le_of_lt hlt)
        · exact hmin z (by simp [hz])
      · rw [if_neg hlt]
        obtain ⟨front, m, hpass, hmin⟩ := ih (y :: rest) (by simp only [List.length_cons]; omega)
        refine ⟨x :: front, m, by rw [hpass]; rfl, ?_⟩
        intro z hz
        simp only [List.mem_cons] at hz
        rcases hz with hz | hz | hz
        · rw [hz]; exact le_trans (hmin y (by simp)) (not_lt.mp hlt)
        · rw [hz]; exact hmin y (by simp)
        · exact hmin z (by simp [hz])

theorem innerLoop_perm (a : List ProcessStats) (i : Nat) : (innerLoop a i).Perm a := by
  rw [innerLoop_eq]
  exact bubblePass_perm _ a

/-- One round of the outer loop extends the sorted tail by one entry. -/
theorem innerLoop_sortedTail (a : List ProcessStats) (i : Nat) (hinv : SortedTail i a)
    (hi : i + 2 ≤ a.length) : SortedTail (i + 1) (innerLoop a i) := by
  obtain ⟨front, back, hab, hlen, hsorted, hcross⟩ := hinv
  have hflen : front.length = a.length - i := by
    rw [hab, List.length_append, hlen]; omega
  obtain ⟨front', m, hpass, hmin⟩ :=
    bubblePass_least_last (front.length - 1) front (by omega)
  have hperm : (front' ++ [m]).Perm front := by
    rw [← hpass]; exact bubblePass_perm _ front
  have hm : m ∈ front := hperm.subset (by simp)
  have hfront' : ∀ x ∈ front', x ∈ front := fun x hx => hperm.subset (by simp [hx])
  refine ⟨front', m :: back, ?_, by simp [hlen], ?_, ?_⟩
  · rw [innerLoop_eq]
    have hk : a.length - i - 1 = front.length - 1 := by omega
    rw [hk, hab, bubblePass_append _ _ _ (by omega), hpass]
    simp
  · unfold SortedByCPU
    rw [List.pairwise_cons]
    exact ⟨fun y hy => hcross m hm y hy, hsorted⟩
  · intro x hx y hy
    simp only [List.mem_cons] at hy
    rcases hy with hy | hy
    · rw [hy]; exact hmin x (hfront' x hx)
    · exact hcross x (hfront' x hx) y hy

/-- The outer loop from round `i` on, for `k` rounds. -/
theorem outer_rounds (k i : Nat) (a : List ProcessStats) (hinv : SortedTail i a)
    (hk : i + k + 1 ≤ a.length ∨ k = 0) :
    SortedTail (i + k) ((List.range' i k).foldl innerLoop a) ∧
      ((List.range' i k).foldl innerLoop a).Perm a := by
  induction k generalizing i a with
  | zero => exact ⟨hinv, List.Perm.refl _⟩
  | succ k ih =>
    rw [List.range'_succ, List.foldl_cons]
    have hlen : (innerLoop a i).length = a.length := (innerLoop_perm a i).length_eq
    have hstep := innerLoop_sortedTail a i hinv (by omega)
    obtain ⟨h1, h2⟩ := ih (i + 1) (innerLoop a i) hstep (by omega)
    refine ⟨?_, h2.trans (innerLoop_perm a i)⟩
    have : i + 1 + k = i + (k + 1) := by omega
    rw [← this]
    exact h1

theorem bubbleSort_perm (a : List ProcessStats) : (bubbleSort a).Perm a := by
  unfold bubbleSort
  rw [List.range_eq_range']
  have h0 : SortedTail 0 a := ⟨a, [], by simp, rfl, List.Pairwise.nil, by simp⟩
  exact (outer_rounds (a.length - 1) 0 a h0 (by omega)).2

theorem bubbleSort_sorted (a : List ProcessStats) : SortedByCPU (bubbleSort a) := by
  have hperm := bubbleSort_perm a
  unfold bubbleSort at hperm ⊢
  rw [List.range_eq_range'] at hperm ⊢
  have h0 : SortedTail 0 a := ⟨a, [], by simp, rfl, List.Pairwise.nil, by simp⟩
  obtain ⟨front, back, hab, hlen, hsorted, hcross⟩ :=
    (outer_rounds (a.length - 1) 0 a h0 (by omega)).1
  have hflen : front.length ≤ 1 := by
    have := hperm.length_eq
    rw [hab, List.length_append, hlen] at this
    omega
  rw [hab]
  unfold SortedByCPU at hsorted ⊢
  rw [List.pairwise_append]
  refine ⟨?_, hsorted, hcross⟩
  match front, hflen with
  | [], _ => exact List.Pairwise.nil
  | [x], _ => exact List.pairwise_singleton _ x

/-- C15: for every process table and every `limit ≥ 0`, `getTopProcesses` returns a
list of length `min limit (number collected)` that is in non-increasing order of
CPU share and is the first `limit` entries of a permutation of the collected
list; no entry left out has a larger CPU share than an entry returned. -/
theorem getTopProcesses_top (ps : List Process) (limit : Int) (hlimit : 0 ≤ limit) :
    ∃ result, getTopProcesses (.ok ps) limit = .ok result ∧
      result.length = min limit.toNat (collectStats ps).length ∧
      SortedByCPU result ∧
      ∃ perm : List ProcessStats, perm.Perm (collectStats ps) ∧ result = perm.take limit.toNat ∧
        ∀ x ∈ result, ∀ y ∈ perm.drop limit.toNat, y.CPUPercent ≤ x.CPUPercent := by
  have hperm := bubbleSort_perm (collectStats ps)
  have hsorted := bubbleSort_sorted (collectStats ps)
  have hlen : (bubbleSort (collectStats ps)).length = (collectStats ps).length :=
    hperm.length_eq
  have hres : getTopProcesses (.ok ps) limit =
      .ok ((bubbleSort (collectStats ps)).take limit.toNat) := by
    unfold getTopProcesses
    dsimp only
    by_cases hgt : ((bubbleSort (collectStats ps)).length : Int) > limit
    · rw [if_pos hgt, if_neg (by omega)]
    · rw [if_neg hgt]
      congr 1
      rw [List.take_of_length_le]
      omega
  refine ⟨_, hres, ?_, ?_, bubbleSort (collectStats ps), hperm, rfl, ?_⟩
  · rw [List.length_take, hlen]
  · exact List.Pairwise.sublist (List.take_sublist _ _) hsorted
  · intro x hx y hy
    have := hsorted
    unfold SortedByCPU at this
    rw [← List.take_append_drop limit.toNat (bubbleSort (collectStats ps)),
      List.pairwise_append] at this
    exact this.2.2 x hx y hy

/-- C15 for the five demo processes and the limit 2: the two entries with CPU
share 50 are returned. -/
theorem getTopProcesses_top_demo :
    ∃ result, getTopProcesses (.ok demoProcesses) 2 = .ok result ∧
      result.length = min (2 : Int).toNat (collectStats demoProcesses).length ∧
      SortedByCPU result ∧
      ∃ perm : List ProcessStats, perm.Perm (collectStats demoProcesses) ∧ result = perm.take (2 : Int).toNat ∧
        ∀ x ∈ result, ∀ y ∈ perm.drop (2 : Int).toNat, y.CPUPercent ≤ x.CPUPercent :=
  getTopProcesses_top demoProcesses 2 (by decide)

end Monitor
